import Mathlib

/-!
Shallow embedding of `src/inst/python/trans_sup_ha.py` (function `st_trans_sup_ha`).

The script manipulates feature collections (shapefiles) through the arcpy
geoprocessing library.  We model the storage world as an association list from
location strings to feature collections, and each arcpy call as a fallible
operation on that world.  A fault oracle (`Op → Bool`) lets us inject
collaborator-service failures at chosen operations, which the spec's error
handling and failure-injection scenarios require.
-/

namespace SupHA

/-- A field definition: name, data type (arcpy type strings such as "Double",
"String", "Integer", "OID", "Geometry"), precision, scale, length, alias,
nullability, required-ness and domain — the properties `st_trans_sup_ha`
reads from `arcpy.ListFields` and passes to `AddField` (line 79). -/
structure Field where
  name : String
  ftype : String
  precision : Nat
  scale : Nat
  flength : Nat
  aliasName : String
  isNullable : Bool
  required : Bool
  domain : String
deriving DecidableEq, Repr

/-- One feature: a geometry (abstract identifier) and attribute values keyed by
field name.  Attribute values are modelled as integers (their exact value type
is irrelevant to the schema-migration logic). -/
structure Feature where
  geom : Nat
  attrs : List (String × Int)
deriving DecidableEq, Repr

/-- A feature collection: spatial reference (abstract identifier), geometry
type, ordered field list, ordered rows. -/
structure FeatureCollection where
  sref : Nat
  geomType : String
  fields : List Field
  rows : List Feature
deriving DecidableEq, Repr

/-- The storage world: locations mapped to feature collections. -/
abbrev Storage := List (String × FeatureCollection)

/-- Look up the collection at a location (first match). -/
def lookupColl : Storage → String → Option FeatureCollection
  | [], _ => none
  | (k, c) :: rest, loc => if k = loc then some c else lookupColl rest loc

/-- Replace the collection at a location in place, or append it if absent. -/
def updateColl : Storage → String → FeatureCollection → Storage
  | [], loc, c => [(loc, c)]
  | (k, c0) :: rest, loc, c =>
      if k = loc then (loc, c) :: rest else (k, c0) :: updateColl rest loc c

/-- Remove the collection at a location (first match). -/
def removeColl : Storage → String → Storage
  | [], _ => []
  | (k, c0) :: rest, loc => if k = loc then rest else (k, c0) :: removeColl rest loc

/-- The state-and-error monad of the embedding: Python mutates external storage
and may raise; an exception carries the storage as mutated so far (Python
`except` observes all side effects already performed). -/
def M (α : Type) : Type := Storage → Except String α × Storage

/-- Monadic bind for `M`. -/
def mbind {α β : Type} (x : M α) (f : α → M β) : M β := fun s =>
  match x s with
  | (Except.ok a, s') => f a s'
  | (Except.error e, s') => (Except.error e, s')

/-- Monadic pure for `M`. -/
def mpure {α : Type} (a : α) : M α := fun s => (Except.ok a, s)

/-- Descriptor of one collaborator (arcpy) call, used by the fault oracle to
decide which calls fail — the spec's failure-injection scenarios. -/
inductive Op where
  | describe (loc : String)
  | listFields (loc : String)
  | createFeatureclass (loc : String)
  | addField (loc : String) (fname : String)
  | copyRows (src : String) (dst : String)
  | calcGeometry (loc : String) (fname : String)
  | deleteField (loc : String) (fname : String)
  | delete (loc : String)
  | copyFeatures (src : String) (dst : String)
deriving DecidableEq

/-- A fault oracle: decides which collaborator calls raise an injected
`arcpy.ExecuteError`. -/
abbrev FaultOracle := Op → Bool

/-- The oracle under which every collaborator call succeeds. -/
def noFault : FaultOracle := fun _ => false

/-- Run one collaborator call: the oracle may make it raise; otherwise the
operation's own semantics apply (which may still raise, e.g. on a missing
dataset). -/
def svc {α : Type} (fo : FaultOracle) (op : Op)
    (act : Storage → Except String (α × Storage)) : M α := fun s =>
  if fo op then (Except.error "ExecuteError: injected collaborator fault", s)
  else
    match act s with
    | Except.ok (a, s') => (Except.ok a, s')
    | Except.error m => (Except.error m, s)

/-- `arcpy.Describe(loc).spatialReference`. -/
def describeAct (loc : String) (s : Storage) : Except String (Nat × Storage) :=
  match lookupColl s loc with
  | some c => Except.ok (c.sref, s)
  | none => Except.error ("ExecuteError: dataset not found: " ++ loc)

/-- `arcpy.ListFields(loc)`. -/
def listFieldsAct (loc : String) (s : Storage) : Except String (List Field × Storage) :=
  match lookupColl s loc with
  | some c => Except.ok (c.fields, s)
  | none => Except.error ("ExecuteError: dataset not found: " ++ loc)

/-- The object-identity field a new shapefile carries. -/
def stdFID : Field := ⟨"FID", "OID", 0, 0, 4, "FID", false, true, ""⟩

/-- The geometry field a new shapefile carries. -/
def stdShape : Field := ⟨"Shape", "Geometry", 0, 0, 0, "Shape", true, true, ""⟩

/-- The vestigial integer field `Id` that `arcpy.management.CreateFeatureclass`
automatically adds to a new shapefile (the field line 113 of the source
deletes again). -/
def stdId : Field := ⟨"Id", "Integer", 6, 0, 6, "Id", true, false, ""⟩

/-- `arcpy.management.CreateFeatureclass`: new empty shapefile with the
collaborator-injected fields `FID`, `Shape`, `Id` (spec §9: implicit schema
side effects).  `arcpy.env.overwriteOutput = True`, so an existing dataset at
the location is overwritten. -/
def createFCAct (loc : String) (gt : String) (sref : Nat) (s : Storage) :
    Except String (Unit × Storage) :=
  Except.ok ((), updateColl s loc ⟨sref, gt, [stdFID, stdShape, stdId], []⟩)

/-- `AddField` type keywords map to `Field.type` strings; the source only ever
passes the keyword "DOUBLE" (line 82) or an already-normalized `Field.type`
value (line 79). -/
def normalizeFieldType (t : String) : String :=
  if t = "DOUBLE" then "Double" else t

/-- Python's `str.lower()` on field names (a kernel-computable equivalent of
`String.toLower`). -/
def strLower (s : String) : String := ⟨s.data.map Char.toLower⟩

/-- Does the field list contain a field with this name?  Field names are
case-insensitive in the underlying storage. -/
def hasFieldCI (fields : List Field) (n : String) : Bool :=
  fields.any (fun f => strLower f.name == strLower n)

/-- `arcpy.management.AddField`.  Adding a name that already exists (up to
case) leaves the schema unchanged and the tool completes with a warning —
the collaborator behavior the script relies on when walking the original
field list into a shapefile that already carries the implicit `Id` field. -/
def addFieldAct (loc n t : String) (prec sc len : Nat) (aliasN : String)
    (nullable req : Bool) (dom : String) (s : Storage) :
    Except String (Unit × Storage) :=
  match lookupColl s loc with
  | none => Except.error ("ExecuteError: dataset not found: " ++ loc)
  | some c =>
      if hasFieldCI c.fields n then Except.ok ((), s)
      else
        Except.ok ((), updateColl s loc
          { c with fields :=
              c.fields ++ [⟨n, normalizeFieldType t, prec, sc, len, aliasN, nullable, req, dom⟩] })

/-- Read an attribute value by field name (0 when absent). -/
def getAttr (r : Feature) (n : String) : Int :=
  (r.attrs.lookup n).getD 0

/-- Set an attribute value: replace the first entry with that key in place, or
append the entry if the key is absent. -/
def setAttr (n : String) (v : Int) : List (String × Int) → List (String × Int)
  | [] => [(n, v)]
  | (k, w) :: rest => if k = n then (n, v) :: rest else (k, w) :: setAttr n v rest

/-- The `SearchCursor`/`InsertCursor` loop of lines 96-99: stream every source
row's geometry plus the projection onto `names` into the destination,
preserving row order.  Modelled as one bulk collaborator operation. -/
def copyRowsAct (src dst : String) (names : List String) (s : Storage) :
    Except String (Unit × Storage) :=
  match lookupColl s src with
  | none => Except.error ("ExecuteError: dataset not found: " ++ src)
  | some cs =>
      match lookupColl s dst with
      | none => Except.error ("ExecuteError: dataset not found: " ++ dst)
      | some cd =>
          Except.ok ((),
            updateColl s dst
              { cd with rows :=
                  cd.rows ++ cs.rows.map (fun r => ⟨r.geom, names.map (fun n => (n, getAttr r n))⟩) })

/-- Precision of the Double field `CalculateGeometryAttributes` itself creates
when asked to write into a field the schema does not have (collaborator
default, not chosen by the caller). -/
def calcAddedPrecision : Nat := 19

/-- Scale of the Double field `CalculateGeometryAttributes` itself creates
when the target field is absent (collaborator default). -/
def calcAddedScale : Nat := 11

/-- The field `CalculateGeometryAttributes` appends when asked to compute into
a field name the schema lacks. -/
def calcAddedField (fname : String) : Field :=
  ⟨fname, "Double", calcAddedPrecision, calcAddedScale, calcAddedPrecision, fname, true, false, ""⟩

/-- `arcpy.management.CalculateGeometryAttributes(loc, [[fname, 'AREA']],
"HECTARES", "SAME_AS_INPUT")`: resolve `fname` case-insensitively against the
schema; write each feature's own geometry area in hectares (abstract function
`areaHa`, evaluated against the collection's native spatial reference) into
that field; if no field matches, the tool first appends a new Double field
with collaborator-default precision/scale. -/
def calcGeometryAct (areaHa : Nat → Nat → Int) (loc fname : String) (s : Storage) :
    Except String (Unit × Storage) :=
  match lookupColl s loc with
  | none => Except.error ("ExecuteError: dataset not found: " ++ loc)
  | some c =>
      match c.fields.find? (fun f => strLower f.name == strLower fname) with
      | some f =>
          Except.ok ((), updateColl s loc
            { c with rows := c.rows.map (fun r => ⟨r.geom, setAttr f.name (areaHa r.geom c.sref) r.attrs⟩) })
      | none =>
          Except.ok ((), updateColl s loc
            { c with
                fields := c.fields ++ [calcAddedField fname],
                rows := c.rows.map (fun r => ⟨r.geom, setAttr fname (areaHa r.geom c.sref) r.attrs⟩) })

/-- Remove the first field matching the name up to case. -/
def removeFieldCI (n : String) : List Field → List Field
  | [] => []
  | f :: rest => if strLower f.name == strLower n then rest else f :: removeFieldCI n rest

/-- `arcpy.management.DeleteField`: drops the first field matching the name up
to case together with its column of data; raises if no field matches. -/
def deleteFieldAct (loc n : String) (s : Storage) : Except String (Unit × Storage) :=
  match lookupColl s loc with
  | none => Except.error ("ExecuteError: dataset not found: " ++ loc)
  | some c =>
      match c.fields.find? (fun f => strLower f.name == strLower n) with
      | none => Except.error ("ExecuteError: field not found: " ++ n)
      | some f =>
          Except.ok ((), updateColl s loc
            { c with
                fields := removeFieldCI n c.fields,
                rows := c.rows.map (fun r => ⟨r.geom, r.attrs.filter (fun kv => !(kv.1 == f.name))⟩) })

/-- `arcpy.management.Delete`. -/
def deleteAct (loc : String) (s : Storage) : Except String (Unit × Storage) :=
  match lookupColl s loc with
  | none => Except.error ("ExecuteError: dataset not found: " ++ loc)
  | some _ => Except.ok ((), removeColl s loc)

/-- `arcpy.management.CopyFeatures`: duplicate schema and data to the
destination (overwriting, per `overwriteOutput = True`). -/
def copyFeaturesAct (src dst : String) (s : Storage) : Except String (Unit × Storage) :=
  match lookupColl s src with
  | none => Except.error ("ExecuteError: dataset not found: " ++ src)
  | some c => Except.ok ((), updateColl s dst c)

/-- `arcpy.CreateUniqueName("temp_output.shp", arcpy.env.scratchFolder)`:
a location distinct from every existing one (built here by concatenation, so
it is strictly longer than every existing key). -/
def freshLoc (s : Storage) : String :=
  s.foldl (fun a kv => a ++ kv.1) "temp_output.shp"

/-- The field-walk of lines 76-82: for each original field, skip `OID` and
`Geometry` fields; re-add every other field with its original properties; at
the target field's slot add the corrected `DOUBLE` definition instead. -/
def addFieldsLoop (fo : FaultOracle) (temp campo : String) (prec esc : Nat) :
    List Field → M Unit
  | [] => mpure ()
  | f :: rest =>
      mbind
        (if (!(f.ftype == "OID") && !(f.ftype == "Geometry")) && !(strLower f.name == strLower campo) then
          svc fo (Op.addField temp f.name)
            (addFieldAct temp f.name f.ftype f.precision f.scale f.flength
              f.aliasName f.isNullable f.required f.domain)
        else if strLower f.name == strLower campo then
          svc fo (Op.addField temp campo)
            (addFieldAct temp campo "DOUBLE" prec esc 0 "" true false "")
        else mpure ())
        (fun _ => addFieldsLoop fo temp campo prec esc rest)

/-- Lines 110-116: delete the vestigial `Id` field, destroy the original,
copy the rebuilt collection back, destroy the temporary collection. -/
def swapPhase (fo : FaultOracle) (temp path : String) : M Bool :=
  mbind (svc fo (Op.deleteField temp "Id") (deleteFieldAct temp "Id")) fun _ =>
  mbind (svc fo (Op.delete path) (deleteAct path)) fun _ =>
  mbind (svc fo (Op.copyFeatures temp path) (copyFeaturesAct temp path)) fun _ =>
  mbind (svc fo (Op.delete temp) (deleteAct temp)) fun _ =>
  mpure true

/-- Lines 90-93: the names of the temporary collection's plain attribute
fields (line 91), then the original fields that also exist there and are not
the target field (line 93) — the projection the cursors copy. -/
def copyNamesOf (campo : String) (originalFields tfs : List Field) : List String :=
  ((originalFields.filter
      (fun f => ((tfs.filter (fun g => !(g.ftype == "OID") && !(g.ftype == "Geometry"))).map
          (fun g => g.name)).contains f.name
        && !(strLower f.name == strLower campo))).map (fun f => f.name))

/-- Lines 62-119 with the temporary location given: build the replacement
collection with corrected schema, stream the rows across, compute the area
values there, then swap it into place. -/
def slowPathCore (fo : FaultOracle) (areaHa : Nat → Nat → Int) (path campo : String)
    (prec esc : Nat) (originalFields : List Field) (sref : Nat) (temp : String) : M Bool :=
  mbind (svc fo (Op.createFeatureclass temp) (createFCAct temp "POLYGON" sref)) fun _ =>
  mbind (addFieldsLoop fo temp campo prec esc originalFields) fun _ =>
  mbind (svc fo (Op.listFields temp) (listFieldsAct temp)) fun tfs =>
  mbind (svc fo (Op.copyRows path temp) (copyRowsAct path temp (copyNamesOf campo originalFields tfs))) fun _ =>
  mbind (svc fo (Op.calcGeometry temp campo) (calcGeometryAct areaHa temp campo)) fun _ =>
  swapPhase fo temp path

/-- Lines 62-119: the slow path; the temporary location is a fresh unique
name inside the scratch area (line 64). -/
def slowPath (fo : FaultOracle) (areaHa : Nat → Nat → Int) (path campo : String)
    (prec esc : Nat) (originalFields : List Field) (sref : Nat) : M Bool := fun s0 =>
  slowPathCore fo areaHa path campo prec esc originalFields sref (freshLoc s0) s0

/-- The `try:` body, lines 27-119.  Read the spatial reference and field list,
look the target field up case-insensitively, then run either the fast path
(recompute only) or the slow path (rebuild). -/
def st_trans_body (fo : FaultOracle) (areaHa : Nat → Nat → Int) (path campo : String)
    (prec esc : Nat) : M Bool :=
  mbind (svc fo (Op.describe path) (describeAct path)) fun sref =>
  mbind (svc fo (Op.listFields path) (listFieldsAct path)) fun originalFields =>
  match originalFields.find? (fun f => strLower f.name == strLower campo) with
  | some fObj =>
      if fObj.ftype == "Double" && fObj.precision == prec && fObj.scale == esc then
        mbind (svc fo (Op.calcGeometry path campo) (calcGeometryAct areaHa path campo)) fun _ =>
        mpure true
      else slowPath fo areaHa path campo prec esc originalFields sref
  | none => slowPath fo areaHa path campo prec esc originalFields sref

/-- The not-found diagnostic of line 22. -/
def notFoundMsg (path : String) : String :=
  "Error: El archivo no existe en la ruta especificada: " ++ path

/-- `st_trans_sup_ha(shapefile_path, campo_superficie, precision, escala)`
(Python defaults: campo = "Sup_ha", prec = 8, esc = 2).
Returns the boolean result, the storage after the call, and the diagnostics
written to stderr.  The existence check of lines 21-23 precedes the `try:`;
the two `except` handlers of lines 121-127 convert any raised fault into
`False` plus a diagnostic. -/
def st_trans_sup_ha (fo : FaultOracle) (areaHa : Nat → Nat → Int) (path campo : String)
    (prec esc : Nat) (s : Storage) : Bool × Storage × List String :=
  if (lookupColl s path).isSome then
    match st_trans_body fo areaHa path campo prec esc s with
    | (Except.ok b, s') => (b, s', [])
    | (Except.error m, s') => (false, s', [m])
  else (false, s, [notFoundMsg path])

end SupHA

namespace SupHA

/-! ### Storage lemmas -/

/-- Keys of the storage are distinct (a well-formed file system). -/
def keysND (s : Storage) : Prop := (s.map Prod.fst).Nodup

instance (s : Storage) : Decidable (keysND s) := by
  unfold keysND; infer_instance

theorem lookup_update_eq (s : Storage) (k : String) (c : FeatureCollection) :
    lookupColl (updateColl s k c) k = some c := by
  induction s with
  | nil => simp [updateColl, lookupColl]
  | cons p rest ih =>
      obtain ⟨k0, c0⟩ := p
      by_cases h : k0 = k
      · subst h; simp [updateColl, lookupColl]
      · rw [updateColl, if_neg h, lookupColl, if_neg h]
        exact ih

theorem lookup_update_ne (s : Storage) (k k' : String) (c : FeatureCollection)
    (h : k' ≠ k) : lookupColl (updateColl s k c) k' = lookupColl s k' := by
  induction s with
  | nil => simp only [updateColl, lookupColl, if_neg (Ne.symm h)]
  | cons p rest ih =>
      obtain ⟨k0, c0⟩ := p
      by_cases h0 : k0 = k
      · subst h0
        rw [updateColl, if_pos rfl, lookupColl, if_neg (Ne.symm h),
          lookupColl, if_neg (Ne.symm h)]
      · rw [updateColl, if_neg h0, lookupColl, lookupColl]
        by_cases h1 : k0 = k'
        · rw [if_pos h1, if_pos h1]
        · rw [if_neg h1, if_neg h1]; exact ih

theorem update_lookup_same (s : Storage) (k : String) (c : FeatureCollection)
    (h : lookupColl s k = some c) : updateColl s k c = s := by
  induction s with
  | nil => simp [lookupColl] at h
  | cons p rest ih =>
      obtain ⟨k0, c0⟩ := p
      by_cases h0 : k0 = k
      · subst h0
        rw [lookupColl, if_pos rfl] at h
        rw [updateColl, if_pos rfl]
        simp at h
        rw [h]
      · rw [lookupColl, if_neg h0] at h
        rw [updateColl, if_neg h0, ih h]

theorem lookup_remove_ne (s : Storage) (k k' : String) (h : k' ≠ k) :
    lookupColl (removeColl s k) k' = lookupColl s k' := by
  induction s with
  | nil => rw [removeColl]
  | cons p rest ih =>
      obtain ⟨k0, c0⟩ := p
      by_cases h0 : k0 = k
      · subst h0
        rw [removeColl, if_pos rfl, lookupColl, if_neg (Ne.symm h)]
      · rw [removeColl, if_neg h0, lookupColl, lookupColl]
        by_cases h1 : k0 = k'
        · rw [if_pos h1, if_pos h1]
        · rw [if_neg h1, if_neg h1]; exact ih

theorem lookup_eq_none_of_not_mem (s : Storage) (k : String)
    (h : k ∉ s.map Prod.fst) : lookupColl s k = none := by
  induction s with
  | nil => rw [lookupColl]
  | cons p rest ih =>
      obtain ⟨k0, c0⟩ := p
      rw [List.map_cons, List.mem_cons] at h
      push_neg at h
      rw [lookupColl, if_neg (Ne.symm h.1)]
      exact ih h.2

theorem lookup_remove_self (s : Storage) (k : String) (h : keysND s) :
    lookupColl (removeColl s k) k = none := by
  induction s with
  | nil => rw [removeColl, lookupColl]
  | cons p rest ih =>
      obtain ⟨k0, c0⟩ := p
      rw [keysND, List.map_cons, List.nodup_cons] at h
      by_cases h0 : k0 = k
      · subst h0
        rw [removeColl, if_pos rfl]
        exact lookup_eq_none_of_not_mem rest k0 h.1
      · rw [removeColl, if_neg h0, lookupColl, if_neg h0]
        exact ih h.2

theorem keys_update_subset (s : Storage) (k : String) (c : FeatureCollection) :
    ((updateColl s k c).map Prod.fst) ⊆ k :: s.map Prod.fst := by
  induction s with
  | nil =>
      intro a ha
      rw [updateColl] at ha
      simp at ha
      simp [ha]
  | cons p rest ih =>
      obtain ⟨k0, c0⟩ := p
      by_cases h0 : k0 = k
      · subst h0
        intro a ha
        rw [updateColl, if_pos rfl] at ha
        rw [List.map_cons, List.mem_cons] at ha
        rcases ha with ha | ha
        · exact List.mem_cons.mpr (Or.inl ha)
        · exact List.mem_cons.mpr (Or.inr (List.mem_cons.mpr (Or.inr ha)))
      · intro a ha
        rw [updateColl, if_neg h0, List.map_cons, List.mem_cons] at ha
        rcases ha with ha | ha
        · simp [ha]
        · rcases List.mem_cons.mp (ih ha) with h1 | h1
          · simp [h1]
          · simp [List.mem_cons, h1]

theorem keysND_update (s : Storage) (k : String) (c : FeatureCollection)
    (h : keysND s) : keysND (updateColl s k c) := by
  induction s with
  | nil => simp [keysND, updateColl]
  | cons p rest ih =>
      obtain ⟨k0, c0⟩ := p
      rw [keysND, List.map_cons, List.nodup_cons] at h
      by_cases h0 : k0 = k
      · subst h0
        rw [updateColl, if_pos rfl]
        rw [keysND, List.map_cons, List.nodup_cons]
        exact h
      · have h2 := ih h.2
        rw [updateColl, if_neg h0]
        rw [keysND, List.map_cons, List.nodup_cons]
        refine ⟨?_, h2⟩
        intro hmem
        rcases List.mem_cons.mp (keys_update_subset rest k c hmem) with h1 | h1
        · exact h0 h1
        · exact h.1 h1

theorem keys_remove_subset (s : Storage) (k : String) :
    ((removeColl s k).map Prod.fst) ⊆ s.map Prod.fst := by
  induction s with
  | nil => intro a ha; rw [removeColl] at ha; exact ha
  | cons p rest ih =>
      obtain ⟨k0, c0⟩ := p
      by_cases h0 : k0 = k
      · subst h0
        intro a ha
        rw [removeColl, if_pos rfl] at ha
        exact List.mem_cons.mpr (Or.inr ha)
      · intro a ha
        rw [removeColl, if_neg h0, List.map_cons, List.mem_cons] at ha
        rcases ha with ha | ha
        · exact List.mem_cons.mpr (Or.inl ha)
        · exact List.mem_cons.mpr (Or.inr (ih ha))

theorem keysND_remove (s : Storage) (k : String) (h : keysND s) :
    keysND (removeColl s k) := by
  induction s with
  | nil => rw [removeColl] at *; exact h
  | cons p rest ih =>
      obtain ⟨k0, c0⟩ := p
      rw [keysND, List.map_cons, List.nodup_cons] at h
      by_cases h0 : k0 = k
      · subst h0
        rw [removeColl, if_pos rfl]
        exact h.2
      · rw [removeColl, if_neg h0, keysND, List.map_cons, List.nodup_cons]
        exact ⟨fun hm => h.1 (keys_remove_subset rest k hm), ih h.2⟩

theorem mem_keys_of_lookup (s : Storage) (k : String) (c : FeatureCollection)
    (h : lookupColl s k = some c) : k ∈ s.map Prod.fst := by
  induction s with
  | nil => rw [lookupColl] at h; exact absurd h (by simp)
  | cons p rest ih =>
      obtain ⟨k0, c0⟩ := p
      by_cases h0 : k0 = k
      · subst h0; exact List.mem_cons.mpr (Or.inl rfl)
      · rw [lookupColl, if_neg h0] at h
        exact List.mem_cons.mpr (Or.inr (ih h))

/-! ### Freshness of the temporary location -/

theorem foldl_append_len_le (s : Storage) (init : String) :
    init.length ≤ (s.foldl (fun a kv => a ++ kv.1) init).length := by
  induction s generalizing init with
  | nil => exact Nat.le_refl _
  | cons p rest ih =>
      rw [List.foldl_cons]
      calc init.length ≤ (init ++ p.1).length := by
            rw [String.length_append]; omega
        _ ≤ _ := ih (init ++ p.1)

theorem mem_len_le_foldl (s : Storage) (init k : String)
    (h : k ∈ s.map Prod.fst) :
    k.length + init.length ≤ (s.foldl (fun a kv => a ++ kv.1) init).length := by
  induction s generalizing init with
  | nil => exact absurd h (by simp)
  | cons p rest ih =>
      obtain ⟨k0, c0⟩ := p
      rw [List.map_cons, List.mem_cons] at h
      rw [List.foldl_cons]
      rcases h with h | h
      · subst h
        calc k.length + init.length = (init ++ k).length := by
              rw [String.length_append]; omega
          _ ≤ _ := foldl_append_len_le rest (init ++ k)
      · calc k.length + init.length ≤ k.length + (init ++ k0).length := by
              rw [String.length_append]; omega
          _ ≤ _ := ih (init ++ k0) h

theorem freshLoc_ne_of_mem (s : Storage) (k : String)
    (h : k ∈ s.map Prod.fst) : k ≠ freshLoc s := by
  intro heq
  have hlen := mem_len_le_foldl s "temp_output.shp" k h
  have h15 : ("temp_output.shp" : String).length = 15 := rfl
  rw [h15] at hlen
  have hfl : (freshLoc s).length = k.length := by rw [heq]
  rw [freshLoc] at hfl
  omega

theorem freshLoc_ne_of_lookup (s : Storage) (k : String) (c : FeatureCollection)
    (h : lookupColl s k = some c) : k ≠ freshLoc s :=
  freshLoc_ne_of_mem s k (mem_keys_of_lookup s k c h)

/-! ### Step lemmas for the embedding monad -/

theorem mbind_ok {α β : Type} (x : M α) (f : α → M β) (s s' : Storage) (a : α)
    (h : x s = (Except.ok a, s')) : mbind x f s = f a s' := by
  rw [mbind, h]

theorem mbind_err {α β : Type} (x : M α) (f : α → M β) (s s' : Storage) (e : String)
    (h : x s = (Except.error e, s')) : mbind x f s = (Except.error e, s') := by
  rw [mbind, h]

theorem mpure_eq {α : Type} (a : α) (s : Storage) : mpure a s = (Except.ok a, s) := rfl

theorem svc_ok {α : Type} (fo : FaultOracle) (op : Op)
    (act : Storage → Except String (α × Storage)) (s s' : Storage) (a : α)
    (hfo : fo op = false) (hact : act s = Except.ok (a, s')) :
    svc fo op act s = (Except.ok a, s') := by
  rw [svc, if_neg (by rw [hfo]; exact Bool.false_ne_true), hact]

theorem svc_fault {α : Type} (fo : FaultOracle) (op : Op)
    (act : Storage → Except String (α × Storage)) (s : Storage)
    (hfo : fo op = true) :
    svc fo op act s = (Except.error "ExecuteError: injected collaborator fault", s) := by
  rw [svc, if_pos hfo]

theorem svc_err {α : Type} (fo : FaultOracle) (op : Op)
    (act : Storage → Except String (α × Storage)) (s : Storage) (m : String)
    (hfo : fo op = false) (hact : act s = Except.error m) :
    svc fo op act s = (Except.error m, s) := by
  rw [svc, if_neg (by rw [hfo]; exact Bool.false_ne_true), hact]

end SupHA

namespace SupHA

/-! ### Pure model of the field-walk (lines 76-82) -/

/-- The field `AddField(temp, field.name, field.type, field.precision, ...)`
appends for a transferred field (line 79). -/
def copyFieldOf (f : Field) : Field :=
  ⟨f.name, normalizeFieldType f.ftype, f.precision, f.scale, f.flength,
    f.aliasName, f.isNullable, f.required, f.domain⟩

/-- The field `AddField(temp, campo_superficie, "DOUBLE", precision, escala)`
appends at the target slot (line 82); unspecified arcpy arguments take their
defaults (no length, no alias, nullable, non-required, no domain). -/
def mkTargetField (campo : String) (prec esc : Nat) : Field :=
  ⟨campo, "Double", prec, esc, 0, "", true, false, ""⟩

/-- Pure effect of one `AddField` on a schema: skip on a case-insensitive
name conflict, else append. -/
def addFieldPure (fields : List Field) (f : Field) : List Field :=
  if hasFieldCI fields f.name then fields else fields ++ [f]

/-- Pure effect of the whole field-walk on the temporary schema. -/
def processFields (campo : String) (prec esc : Nat) : List Field → List Field → List Field
  | cur, [] => cur
  | cur, f :: rest =>
      if (!(f.ftype == "OID") && !(f.ftype == "Geometry")) && !(strLower f.name == strLower campo) then
        processFields campo prec esc (addFieldPure cur (copyFieldOf f)) rest
      else if strLower f.name == strLower campo then
        processFields campo prec esc (addFieldPure cur (mkTargetField campo prec esc)) rest
      else
        processFields campo prec esc cur rest

theorem normalize_DOUBLE : normalizeFieldType "DOUBLE" = "Double" := rfl

theorem copyFieldOf_name (f : Field) : (copyFieldOf f).name = f.name := rfl

theorem update_update (s : Storage) (k : String) (c c' : FeatureCollection) :
    updateColl (updateColl s k c) k c' = updateColl s k c' := by
  induction s with
  | nil => simp [updateColl]
  | cons p rest ih =>
      obtain ⟨k0, c0⟩ := p
      by_cases h0 : k0 = k
      · subst h0; simp [updateColl]
      · rw [updateColl, if_neg h0, updateColl, if_neg h0, updateColl, if_neg h0, ih]

/-- The field-walk (lines 76-82), run under an oracle that does not fault the
`AddField` calls, succeeds and only replaces the temporary schema by its pure
transformation. -/
theorem addFieldsLoop_spec (fo : FaultOracle) (temp campo : String) (prec esc : Nat)
    (flds : List Field) (s : Storage) (tc : FeatureCollection)
    (htc : lookupColl s temp = some tc)
    (hfo : ∀ n, fo (Op.addField temp n) = false) :
    addFieldsLoop fo temp campo prec esc flds s =
      (Except.ok (), updateColl s temp { tc with fields := processFields campo prec esc tc.fields flds }) := by
  induction flds generalizing s tc with
  | nil =>
      rw [addFieldsLoop, processFields]
      have he : ({ tc with fields := tc.fields } : FeatureCollection) = tc := rfl
      rw [he, update_lookup_same s temp tc htc, mpure_eq]
  | cons f rest ih =>
      rw [addFieldsLoop, processFields]
      by_cases h1 : ((!(f.ftype == "OID") && !(f.ftype == "Geometry")) && !(strLower f.name == strLower campo)) = true
      · rw [if_pos h1, if_pos h1]
        by_cases hconf : hasFieldCI tc.fields f.name = true
        · have hact : addFieldAct temp f.name f.ftype f.precision f.scale f.flength
              f.aliasName f.isNullable f.required f.domain s = Except.ok ((), s) := by
            rw [addFieldAct, htc]
            simp only [if_pos hconf]
          rw [mbind_ok _ _ s s () (svc_ok fo _ _ s s () (hfo f.name) hact)]
          rw [addFieldPure, copyFieldOf_name, if_pos hconf]
          exact ih s tc htc
        · have hconf' : hasFieldCI tc.fields f.name = false := by
            revert hconf; cases hasFieldCI tc.fields f.name <;> simp
          have hact : addFieldAct temp f.name f.ftype f.precision f.scale f.flength
              f.aliasName f.isNullable f.required f.domain s =
              Except.ok ((), updateColl s temp { tc with fields := tc.fields ++ [copyFieldOf f] }) := by
            rw [addFieldAct, htc]
            simp only [hconf', Bool.false_eq_true, if_false]
            rfl
          rw [mbind_ok _ _ s _ () (svc_ok fo _ _ s _ () (hfo f.name) hact)]
          rw [addFieldPure, copyFieldOf_name, if_neg (by rw [hconf']; exact Bool.false_ne_true)]
          rw [ih _ _ (lookup_update_eq s temp _), update_update]
      · rw [if_neg h1, if_neg h1]
        by_cases h2 : (strLower f.name == strLower campo) = true
        · rw [if_pos h2, if_pos h2]
          by_cases hconf : hasFieldCI tc.fields campo = true
          · have hap : addFieldPure tc.fields (mkTargetField campo prec esc) = tc.fields :=
              if_pos hconf
            have hact : addFieldAct temp campo "DOUBLE" prec esc 0 "" true false "" s =
                Except.ok ((), s) := by
              rw [addFieldAct, htc]
              simp only [if_pos hconf]
            rw [mbind_ok _ _ s s () (svc_ok fo _ _ s s () (hfo campo) hact), hap]
            exact ih s tc htc
          · have hconf' : hasFieldCI tc.fields campo = false := by
              revert hconf; cases hasFieldCI tc.fields campo <;> simp
            have hap : addFieldPure tc.fields (mkTargetField campo prec esc) =
                tc.fields ++ [mkTargetField campo prec esc] :=
              if_neg (by rw [show (mkTargetField campo prec esc).name = campo from rfl, hconf']
                         exact Bool.false_ne_true)
            have hact : addFieldAct temp campo "DOUBLE" prec esc 0 "" true false "" s =
                Except.ok ((), updateColl s temp { tc with fields := tc.fields ++ [mkTargetField campo prec esc] }) := by
              rw [addFieldAct, htc]
              simp only [hconf', Bool.false_eq_true, if_false]
              rfl
            rw [mbind_ok _ _ s _ () (svc_ok fo _ _ s _ () (hfo campo) hact), hap]
            rw [ih _ _ (lookup_update_eq s temp _), update_update]
        · rw [if_neg h2, if_neg h2]
          rw [mbind_ok _ _ s s () (mpure_eq () s)]
          exact ih s tc htc

end SupHA

namespace SupHA

/-! ### What the field-walk does to the attribute fields -/

/-- Per-attribute effect of the migration on the schema: a field named `Id`
(up to case) collides with the implicit `Id` field of the fresh shapefile and
is silently skipped; the target slot becomes the corrected definition; every
other field is transferred. -/
def migrateAttr (campo : String) (prec esc : Nat) (f : Field) : Option Field :=
  if strLower f.name == "id" then none
  else if strLower f.name == strLower campo then some (mkTargetField campo prec esc)
  else some (copyFieldOf f)

/-- The attribute fields of the rebuilt schema, in original order. -/
def migratedAttrs (campo : String) (prec esc : Nat) (attrs : List Field) : List Field :=
  attrs.filterMap (migrateAttr campo prec esc)

theorem hasFieldCI_append (l : List Field) (x : Field) (n : String) :
    hasFieldCI (l ++ [x]) n = (hasFieldCI l n || (strLower x.name == strLower n)) := by
  rw [hasFieldCI, hasFieldCI, List.any_append, List.any_cons, List.any_nil, Bool.or_false]

theorem addFieldPure_skip (cur : List Field) (x : Field)
    (h : hasFieldCI cur x.name = true) : addFieldPure cur x = cur := if_pos h

theorem addFieldPure_add (cur : List Field) (x : Field)
    (h : hasFieldCI cur x.name = false) : addFieldPure cur x = cur ++ [x] :=
  if_neg (by rw [h]; exact Bool.false_ne_true)

theorem beqT {a b : String} (h : a = b) : (a == b) = true := beq_iff_eq.mpr h

theorem beqF {a b : String} (h : ¬a = b) : (a == b) = false := beq_eq_false_iff_ne.mpr h

/-- Characterization of the field-walk: starting from a schema that already
contains an `id`-named field but collides with no other incoming name, the
walk appends exactly the migrated attribute fields, in order. -/
theorem processFields_spec (campo : String) (prec esc : Nat) (attrs : List Field) :
    ∀ cur : List Field,
    (∀ f ∈ attrs, ¬f.ftype = "OID" ∧ ¬f.ftype = "Geometry") →
    ((attrs.map (fun f => strLower f.name)).Nodup) →
    (∀ f ∈ attrs, ¬strLower f.name = "id" → hasFieldCI cur f.name = false) →
    (∀ f ∈ attrs, strLower f.name = "id" → hasFieldCI cur f.name = true) →
    (¬strLower campo = "id") →
    (∀ f ∈ attrs, strLower f.name = strLower campo → hasFieldCI cur campo = false) →
    processFields campo prec esc cur attrs = cur ++ migratedAttrs campo prec esc attrs := by
  induction attrs with
  | nil =>
      intro cur _ _ _ _ _ _
      rw [processFields, migratedAttrs, List.filterMap_nil, List.append_nil]
  | cons f rest ih =>
      intro cur h1 h2 h3 h4 h5 h6
      have hmemf : f ∈ f :: rest := List.mem_cons_self f rest
      have htypes := h1 f hmemf
      rw [List.map_cons, List.nodup_cons] at h2
      have hne_tail : ∀ g ∈ rest, ¬strLower g.name = strLower f.name := by
        intro g hg hgl
        exact h2.1 (List.mem_map.mpr ⟨g, hg, hgl⟩)
      have h1r : ∀ g ∈ rest, ¬g.ftype = "OID" ∧ ¬g.ftype = "Geometry" :=
        fun g hg => h1 g (List.mem_cons_of_mem f hg)
      have h3r : ∀ g ∈ rest, ¬strLower g.name = "id" → hasFieldCI cur g.name = false :=
        fun g hg => h3 g (List.mem_cons_of_mem f hg)
      have h4r : ∀ g ∈ rest, strLower g.name = "id" → hasFieldCI cur g.name = true :=
        fun g hg => h4 g (List.mem_cons_of_mem f hg)
      have h6r : ∀ g ∈ rest, strLower g.name = strLower campo → hasFieldCI cur campo = false :=
        fun g hg => h6 g (List.mem_cons_of_mem f hg)
      by_cases hid : strLower f.name = "id"
      · -- the incoming field collides with the implicit Id field: skipped
        have hnecampo : ¬strLower f.name = strLower campo := by
          intro h'; exact h5 (h'.symm.trans hid)
        have hc1 : ((!(f.ftype == "OID") && !(f.ftype == "Geometry")) && !(strLower f.name == strLower campo)) = true := by
          rw [beqF htypes.1, beqF htypes.2, beqF hnecampo]; rfl
        rw [processFields, if_pos hc1]
        rw [addFieldPure_skip cur (copyFieldOf f) (h4 f hmemf hid)]
        have hmig : migrateAttr campo prec esc f = none := by
          rw [migrateAttr, if_pos (beqT hid)]
        rw [migratedAttrs, List.filterMap_cons, hmig, ← migratedAttrs]
        exact ih cur h1r h2.2 h3r h4r h5 h6r
      · by_cases hcam : strLower f.name = strLower campo
        · -- the target slot: the corrected definition is added here
          have hc1 : ((!(f.ftype == "OID") && !(f.ftype == "Geometry")) && !(strLower f.name == strLower campo)) = false := by
            rw [beqT hcam]
            simp
          rw [processFields, if_neg (by rw [hc1]; exact Bool.false_ne_true),
            if_pos (beqT hcam)]
          rw [addFieldPure_add cur (mkTargetField campo prec esc) (h6 f hmemf hcam)]
          have hmig : migrateAttr campo prec esc f = some (mkTargetField campo prec esc) := by
            rw [migrateAttr, if_neg (by rw [beqF hid]; exact Bool.false_ne_true), if_pos (beqT hcam)]
          have ih3 : ∀ g ∈ rest, ¬strLower g.name = "id" →
              hasFieldCI (cur ++ [mkTargetField campo prec esc]) g.name = false := by
            intro g hg hgid
            rw [hasFieldCI_append, h3r g hg hgid, Bool.false_or]
            apply beqF
            intro h'
            have h'' : strLower campo = strLower g.name := h'
            exact hne_tail g hg (h''.symm.trans hcam.symm)
          have ih4 : ∀ g ∈ rest, strLower g.name = "id" →
              hasFieldCI (cur ++ [mkTargetField campo prec esc]) g.name = true := by
            intro g hg hgid
            rw [hasFieldCI_append, h4r g hg hgid, Bool.true_or]
          have ih6 : ∀ g ∈ rest, strLower g.name = strLower campo →
              hasFieldCI (cur ++ [mkTargetField campo prec esc]) campo = false := by
            intro g hg hgcam
            exact absurd (hgcam.trans hcam.symm) (hne_tail g hg)
          rw [migratedAttrs, List.filterMap_cons, hmig, ← migratedAttrs]
          rw [ih (cur ++ [mkTargetField campo prec esc]) h1r h2.2 ih3 ih4 h5 ih6]
          rw [List.append_assoc]
          rfl
        · -- an ordinary field: transferred unchanged
          have hc1 : ((!(f.ftype == "OID") && !(f.ftype == "Geometry")) && !(strLower f.name == strLower campo)) = true := by
            rw [beqF htypes.1, beqF htypes.2, beqF hcam]; rfl
          rw [processFields, if_pos hc1]
          rw [addFieldPure_add cur (copyFieldOf f) (h3 f hmemf hid)]
          have hmig : migrateAttr campo prec esc f = some (copyFieldOf f) := by
            rw [migrateAttr, if_neg (by rw [beqF hid]; exact Bool.false_ne_true),
              if_neg (by rw [beqF hcam]; exact Bool.false_ne_true)]
          have ih3 : ∀ g ∈ rest, ¬strLower g.name = "id" →
              hasFieldCI (cur ++ [copyFieldOf f]) g.name = false := by
            intro g hg hgid
            rw [hasFieldCI_append, h3r g hg hgid, Bool.false_or]
            apply beqF
            intro h'
            have h'' : strLower f.name = strLower g.name := h'
            exact hne_tail g hg h''.symm
          have ih4 : ∀ g ∈ rest, strLower g.name = "id" →
              hasFieldCI (cur ++ [copyFieldOf f]) g.name = true := by
            intro g hg hgid
            rw [hasFieldCI_append, h4r g hg hgid, Bool.true_or]
          have ih6 : ∀ g ∈ rest, strLower g.name = strLower campo →
              hasFieldCI (cur ++ [copyFieldOf f]) campo = false := by
            intro g hg hgcam
            rw [hasFieldCI_append, h6r g hg hgcam, Bool.false_or]
            apply beqF
            intro h'
            exact hcam h'
          rw [migratedAttrs, List.filterMap_cons, hmig, ← migratedAttrs]
          rw [ih (cur ++ [copyFieldOf f]) h1r h2.2 ih3 ih4 h5 ih6]
          rw [List.append_assoc]
          rfl

end SupHA

namespace SupHA

/-! ### Well-formedness of the inputs -/

/-- The supplied target field name does not collide (case-insensitively) with
the collection-managed shapefile names `FID`/`Shape` nor with the implicit
`Id` field. -/
def CampoOk (campo : String) : Prop :=
  ¬strLower campo = "fid" ∧ ¬strLower campo = "shape" ∧ ¬strLower campo = "id"

instance (campo : String) : Decidable (CampoOk campo) := by
  unfold CampoOk; infer_instance

theorem copyFieldOf_eq_self (f : Field) (h : normalizeFieldType f.ftype = f.ftype) :
    copyFieldOf f = f := by
  cases f with
  | mk n t p sc l a nu r d => exact congrArg (fun t' => Field.mk n t' p sc l a nu r d) h

theorem migrateAttr_cases {campo : String} {prec esc : Nat} {f g : Field}
    (h : migrateAttr campo prec esc f = some g) :
    (¬strLower f.name = "id" ∧ strLower f.name = strLower campo ∧ g = mkTargetField campo prec esc) ∨
    (¬strLower f.name = "id" ∧ ¬strLower f.name = strLower campo ∧ g = copyFieldOf f) := by
  rw [migrateAttr] at h
  by_cases hid : strLower f.name = "id"
  · rw [if_pos (beqT hid)] at h
    exact absurd h (by simp)
  · rw [if_neg (by rw [beqF hid]; exact Bool.false_ne_true)] at h
    by_cases hcam : strLower f.name = strLower campo
    · rw [if_pos (beqT hcam)] at h
      exact Or.inl ⟨hid, hcam, (Option.some.inj h).symm⟩
    · rw [if_neg (by rw [beqF hcam]; exact Bool.false_ne_true)] at h
      exact Or.inr ⟨hid, hcam, (Option.some.inj h).symm⟩

theorem migratedAttrs_not_oid {campo : String} {prec esc : Nat} {attrs : List Field}
    (hattr : ∀ f ∈ attrs, ¬f.ftype = "OID" ∧ ¬f.ftype = "Geometry" ∧ normalizeFieldType f.ftype = f.ftype) :
    ∀ g ∈ migratedAttrs campo prec esc attrs, ¬g.ftype = "OID" ∧ ¬g.ftype = "Geometry" := by
  intro g hg
  obtain ⟨f, hf, hsome⟩ := List.mem_filterMap.mp hg
  rcases migrateAttr_cases hsome with ⟨_, _, rfl⟩ | ⟨_, _, rfl⟩
  · have hd1 : ¬("Double" : String) = "OID" := by decide
    have hd2 : ¬("Double" : String) = "Geometry" := by decide
    exact ⟨fun h => hd1 h, fun h => hd2 h⟩
  · rw [copyFieldOf_eq_self f (hattr f hf).2.2]
    exact ⟨(hattr f hf).1, (hattr f hf).2.1⟩

/-- Every field of the migrated schema either is the corrected target field
(named exactly `campo`) or carries the name of a source attribute field that
is neither the target nor `id`-named. -/
theorem migratedAttrs_names {campo : String} {prec esc : Nat} {attrs : List Field} :
    ∀ g ∈ migratedAttrs campo prec esc attrs,
      g.name = campo ∨
      ∃ f ∈ attrs, ¬strLower f.name = "id" ∧ ¬strLower f.name = strLower campo ∧ g.name = f.name := by
  intro g hg
  obtain ⟨f, hf, hsome⟩ := List.mem_filterMap.mp hg
  rcases migrateAttr_cases hsome with ⟨_, _, rfl⟩ | ⟨hid, hcam, rfl⟩
  · exact Or.inl rfl
  · exact Or.inr ⟨f, hf, hid, hcam, rfl⟩

/-- The field-walk silently skips the collection-managed `FID` and `Shape`
fields at the head of the original field list (line 78). -/
theorem processFields_skip_heads (campo : String) (prec esc : Nat) (cur attrs : List Field)
    (hcampo : CampoOk campo) :
    processFields campo prec esc cur (stdFID :: stdShape :: attrs) =
      processFields campo prec esc cur attrs := by
  rw [processFields]
  rw [if_neg (by
    rw [show (!(stdFID.ftype == "OID") && !(stdFID.ftype == "Geometry")) = false from rfl, Bool.false_and]
    exact Bool.false_ne_true)]
  rw [if_neg (by
    rw [show strLower stdFID.name = "fid" from rfl, beqF (fun h => hcampo.1 h.symm)]
    exact Bool.false_ne_true)]
  rw [processFields]
  rw [if_neg (by
    rw [show (!(stdShape.ftype == "OID") && !(stdShape.ftype == "Geometry")) = false from rfl, Bool.false_and]
    exact Bool.false_ne_true)]
  rw [if_neg (by
    rw [show strLower stdShape.name = "shape" from rfl, beqF (fun h => hcampo.2.1 h.symm)]
    exact Bool.false_ne_true)]

/-- The field-walk starting from the fresh shapefile's implicit schema
appends exactly the migrated attribute fields. -/
theorem processFields_std (campo : String) (prec esc : Nat) (attrs : List Field)
    (hattr : ∀ f ∈ attrs, ¬f.ftype = "OID" ∧ ¬f.ftype = "Geometry")
    (hnd : (attrs.map (fun f => strLower f.name)).Nodup)
    (hres : ∀ f ∈ attrs, ¬strLower f.name = "fid" ∧ ¬strLower f.name = "shape")
    (hcampo : CampoOk campo) :
    processFields campo prec esc [stdFID, stdShape, stdId] attrs =
      [stdFID, stdShape, stdId] ++ migratedAttrs campo prec esc attrs := by
  apply processFields_spec campo prec esc attrs [stdFID, stdShape, stdId] hattr hnd
  · intro f hf hfid
    have hr := hres f hf
    rw [show hasFieldCI [stdFID, stdShape, stdId] f.name =
        (("fid" == strLower f.name) || (("shape" == strLower f.name) || (("id" == strLower f.name) || false))) from rfl]
    rw [beqF (fun h => hr.1 h.symm), beqF (fun h => hr.2 h.symm), beqF (fun h => hfid h.symm)]
    rfl
  · intro f hf hfid
    rw [show hasFieldCI [stdFID, stdShape, stdId] f.name =
        (("fid" == strLower f.name) || (("shape" == strLower f.name) || (("id" == strLower f.name) || false))) from rfl]
    rw [beqT hfid.symm]
    simp
  · exact hcampo.2.2
  · intro f hf hfcam
    rw [show hasFieldCI [stdFID, stdShape, stdId] campo =
        (("fid" == strLower campo) || (("shape" == strLower campo) || (("id" == strLower campo) || false))) from rfl]
    rw [beqF (fun h => hcampo.1 h.symm), beqF (fun h => hcampo.2.1 h.symm), beqF (fun h => hcampo.2.2 h.symm)]
    rfl

end SupHA

namespace SupHA

/-! ### The copied projection and the target lookup in the rebuilt schema -/

/-- The attribute names the cursor copy transfers: every attribute that is
neither the target field nor lost to the `Id` collision (an `Id`-cased field
is still copied, into the implicit `Id` column). -/
def slowCopyNames (campo : String) (attrs : List Field) : List String :=
  (attrs.filter (fun f =>
    (f.name == "Id" || !(strLower f.name == "id")) && !(strLower f.name == strLower campo))).map
    (fun f => f.name)

/-- Is some attribute field the target field (case-insensitively)? -/
def targetPresent (campo : String) (attrs : List Field) : Bool :=
  attrs.any (fun f => strLower f.name == strLower campo)

theorem copyNamesOf_eq (campo : String) (prec esc : Nat) (attrs : List Field)
    (hattr : ∀ f ∈ attrs, ¬f.ftype = "OID" ∧ ¬f.ftype = "Geometry" ∧ normalizeFieldType f.ftype = f.ftype)
    (hres : ∀ f ∈ attrs, ¬strLower f.name = "fid" ∧ ¬strLower f.name = "shape")
    (hcampo : CampoOk campo) :
    copyNamesOf campo (stdFID :: stdShape :: attrs)
        ([stdFID, stdShape, stdId] ++ migratedAttrs campo prec esc attrs)
      = slowCopyNames campo attrs := by
  have hmigt := @migratedAttrs_not_oid campo prec esc attrs hattr
  have hfilter : ([stdFID, stdShape, stdId] ++ migratedAttrs campo prec esc attrs).filter
      (fun g => !(g.ftype == "OID") && !(g.ftype == "Geometry"))
      = stdId :: migratedAttrs campo prec esc attrs := by
    rw [List.filter_append]
    rw [show [stdFID, stdShape, stdId].filter (fun g => !(g.ftype == "OID") && !(g.ftype == "Geometry")) = [stdId] from rfl]
    rw [List.filter_eq_self.mpr (by
      intro g hg
      rw [beqF (hmigt g hg).1, beqF (hmigt g hg).2]
      rfl)]
    rw [List.singleton_append]
  have hmemNames : ∀ a : String, a ∈ (migratedAttrs campo prec esc attrs).map (fun g => g.name) →
      a = campo ∨ ∃ f ∈ attrs, ¬strLower f.name = "id" ∧ ¬strLower f.name = strLower campo ∧ a = f.name := by
    intro a ha
    obtain ⟨g, hg, hgname⟩ := List.mem_map.mp ha
    rcases migratedAttrs_names g hg with h | ⟨f, hf, hfid, hfcam, hname⟩
    · exact Or.inl (hgname ▸ h)
    · exact Or.inr ⟨f, hf, hfid, hfcam, by rw [← hgname, hname]⟩
  rw [copyNamesOf, hfilter, List.map_cons]
  rw [show stdId.name = "Id" from rfl]
  rw [List.filter_cons_of_neg (by
    rw [show ((("Id" :: (migratedAttrs campo prec esc attrs).map (fun g => g.name)).contains stdFID.name
        && !(strLower stdFID.name == strLower campo)) =
        (("Id" :: (migratedAttrs campo prec esc attrs).map (fun g => g.name)).contains "FID"
        && !(("fid" : String) == strLower campo))) from rfl]
    intro htrue
    rw [Bool.and_eq_true] at htrue
    have hmem : ("FID" : String) ∈ "Id" :: (migratedAttrs campo prec esc attrs).map (fun g => g.name) :=
      List.elem_iff.mp htrue.1
    rcases List.mem_cons.mp hmem with h | h
    · exact absurd h (by decide)
    · rcases hmemNames "FID" h with h' | ⟨f, hf, _, _, h'⟩
      · exact hcampo.1 (by rw [← h']; rfl)
      · exact (hres f hf).1 (by rw [← h']; rfl))]
  rw [List.filter_cons_of_neg (by
    rw [show ((("Id" :: (migratedAttrs campo prec esc attrs).map (fun g => g.name)).contains stdShape.name
        && !(strLower stdShape.name == strLower campo)) =
        (("Id" :: (migratedAttrs campo prec esc attrs).map (fun g => g.name)).contains "Shape"
        && !(("shape" : String) == strLower campo))) from rfl]
    intro htrue
    rw [Bool.and_eq_true] at htrue
    have hmem : ("Shape" : String) ∈ "Id" :: (migratedAttrs campo prec esc attrs).map (fun g => g.name) :=
      List.elem_iff.mp htrue.1
    rcases List.mem_cons.mp hmem with h | h
    · exact absurd h (by decide)
    · rcases hmemNames "Shape" h with h' | ⟨f, hf, _, _, h'⟩
      · exact hcampo.2.1 (by rw [← h']; rfl)
      · exact (hres f hf).2 (by rw [← h']; rfl))]
  have hcong : ∀ f ∈ attrs,
      (("Id" :: (migratedAttrs campo prec esc attrs).map (fun g => g.name)).contains f.name
        && !(strLower f.name == strLower campo)) =
      ((f.name == "Id" || !(strLower f.name == "id")) && !(strLower f.name == strLower campo)) := by
    intro f hf
    by_cases hcam : strLower f.name = strLower campo
    · rw [beqT hcam]
      simp
    · rw [beqF hcam]
      simp only [Bool.not_false, Bool.and_true]
      by_cases hid : strLower f.name = "id"
      · rw [beqT hid]
        simp only [Bool.not_true, Bool.or_false]
        by_cases hnameId : f.name = "Id"
        · rw [beqT hnameId]
          apply List.elem_iff.mpr
          rw [hnameId]
          exact List.mem_cons_self _ _
        · rw [beqF hnameId]
          apply Bool.eq_false_iff.mpr
          intro htrue
          have hmem : f.name ∈ "Id" :: (migratedAttrs campo prec esc attrs).map (fun g => g.name) :=
            List.elem_iff.mp htrue
          rcases List.mem_cons.mp hmem with h | h
          · exact hnameId h
          · rcases hmemNames f.name h with h' | ⟨f', _, hfid', _, h'⟩
            · exact hcam (by rw [h'])
            · exact hfid' (by rw [← h']; exact hid)
      · rw [beqF hid]
        simp only [Bool.not_false, Bool.or_true]
        apply List.elem_iff.mpr
        apply List.mem_cons.mpr
        refine Or.inr (List.mem_map.mpr ⟨copyFieldOf f, ?_, rfl⟩)
        apply List.mem_filterMap.mpr
        refine ⟨f, hf, ?_⟩
        rw [migrateAttr, if_neg (by rw [beqF hid]; exact Bool.false_ne_true),
          if_neg (by rw [beqF hcam]; exact Bool.false_ne_true)]
  rw [slowCopyNames, List.filter_congr hcong]

end SupHA

namespace SupHA

/-! ### Locating the target field in the rebuilt schema -/

theorem find_migrated_present (campo : String) (prec esc : Nat) (attrs : List Field)
    (hcampo : CampoOk campo) (hp : targetPresent campo attrs = true) :
    (migratedAttrs campo prec esc attrs).find? (fun f => strLower f.name == strLower campo)
      = some (mkTargetField campo prec esc) := by
  induction attrs with
  | nil =>
      rw [targetPresent, List.any_nil] at hp
      exact absurd hp Bool.false_ne_true
  | cons f rest ih =>
      rw [targetPresent, List.any_cons] at hp
      by_cases hcam : strLower f.name = strLower campo
      · have hid : ¬strLower f.name = "id" := by
          intro h; exact hcampo.2.2 (hcam.symm.trans h)
        have hmig : migrateAttr campo prec esc f = some (mkTargetField campo prec esc) := by
          rw [migrateAttr, if_neg (by rw [beqF hid]; exact Bool.false_ne_true), if_pos (beqT hcam)]
        rw [migratedAttrs, List.filterMap_cons, hmig, ← migratedAttrs]
        exact List.find?_cons_of_pos _ (beqT rfl)
      · have hp' : targetPresent campo rest = true := by
          rw [beqF hcam, Bool.false_or] at hp
          rw [targetPresent]
          exact hp
        by_cases hid : strLower f.name = "id"
        · have hmig : migrateAttr campo prec esc f = none := by
            rw [migrateAttr, if_pos (beqT hid)]
          rw [migratedAttrs, List.filterMap_cons, hmig, ← migratedAttrs]
          exact ih hp'
        · have hmig : migrateAttr campo prec esc f = some (copyFieldOf f) := by
            rw [migrateAttr, if_neg (by rw [beqF hid]; exact Bool.false_ne_true),
              if_neg (by rw [beqF hcam]; exact Bool.false_ne_true)]
          rw [migratedAttrs, List.filterMap_cons, hmig, ← migratedAttrs]
          rw [List.find?_cons_of_neg _ (by
            rw [show strLower (copyFieldOf f).name = strLower f.name from rfl, beqF hcam]
            exact Bool.false_ne_true)]
          exact ih hp'

theorem find_migrated_absent (campo : String) (prec esc : Nat) (attrs : List Field)
    (ha : targetPresent campo attrs = false) :
    (migratedAttrs campo prec esc attrs).find? (fun f => strLower f.name == strLower campo) = none := by
  rw [List.find?_eq_none]
  intro g hg htrue
  have hglow : strLower g.name = strLower campo := beq_iff_eq.mp htrue
  obtain ⟨f, hf, hsome⟩ := List.mem_filterMap.mp hg
  rcases migrateAttr_cases hsome with ⟨_, hcam, rfl⟩ | ⟨_, hcam, rfl⟩
  · have hone : targetPresent campo attrs = true := by
      rw [targetPresent]
      exact List.any_eq_true.mpr ⟨f, hf, beqT hcam⟩
    rw [ha] at hone
    exact Bool.false_ne_true hone
  · exact hcam hglow

theorem find_skip_heads (campo : String) (hcampo : CampoOk campo) (Y : List Field) :
    (stdFID :: stdShape :: stdId :: Y).find? (fun f => strLower f.name == strLower campo)
      = Y.find? (fun f => strLower f.name == strLower campo) := by
  rw [List.find?_cons_of_neg _ (by
      rw [show strLower stdFID.name = "fid" from rfl, beqF (fun h => hcampo.1 h.symm)]
      exact Bool.false_ne_true),
    List.find?_cons_of_neg _ (by
      rw [show strLower stdShape.name = "shape" from rfl, beqF (fun h => hcampo.2.1 h.symm)]
      exact Bool.false_ne_true),
    List.find?_cons_of_neg _ (by
      rw [show strLower stdId.name = "id" from rfl, beqF (fun h => hcampo.2.2 h.symm)]
      exact Bool.false_ne_true)]

theorem find_skip_fid_shape (campo : String) (hcampo : CampoOk campo) (Y : List Field) :
    (stdFID :: stdShape :: Y).find? (fun f => strLower f.name == strLower campo)
      = Y.find? (fun f => strLower f.name == strLower campo) := by
  rw [List.find?_cons_of_neg _ (by
      rw [show strLower stdFID.name = "fid" from rfl, beqF (fun h => hcampo.1 h.symm)]
      exact Bool.false_ne_true),
    List.find?_cons_of_neg _ (by
      rw [show strLower stdShape.name = "shape" from rfl, beqF (fun h => hcampo.2.1 h.symm)]
      exact Bool.false_ne_true)]

theorem targetPresent_of_find {campo : String} {attrs : List Field} {fObj : Field}
    (h : attrs.find? (fun f => strLower f.name == strLower campo) = some fObj) :
    targetPresent campo attrs = true := by
  rw [targetPresent]
  exact List.any_eq_true.mpr
    ⟨fObj, List.mem_of_find?_eq_some h,
      @List.find?_some Field (fun f => strLower f.name == strLower campo) fObj attrs h⟩

theorem targetPresent_of_none {campo : String} {attrs : List Field}
    (h : attrs.find? (fun f => strLower f.name == strLower campo) = none) :
    targetPresent campo attrs = false := by
  rw [targetPresent, List.any_eq_false]
  exact fun x hx => List.find?_eq_none.mp h x hx

/-! ### The rebuilt collection -/

/-- One copied row after the area computation: the geometry, the copied
projection, and the target value set to the feature's own area in hectares. -/
def slowRow (areaHa : Nat → Nat → Int) (sref : Nat) (campo : String)
    (names : List String) (r : Feature) : Feature :=
  ⟨r.geom, setAttr campo (areaHa r.geom sref) (names.map (fun n => (n, getAttr r n)))⟩

/-- Dropping the `Id` column of a row (the `DeleteField` of line 113). -/
def delIdRow (r : Feature) : Feature :=
  ⟨r.geom, r.attrs.filter (fun kv => !(kv.1 == "Id"))⟩

/-- The temporary collection as it stands right before the destructive swap:
corrected schema (target at its original slot, or appended by the geometry
computation if absent), all rows copied with the target value computed, `Id`
dropped. -/
def tempFinalColl (areaHa : Nat → Nat → Int) (campo : String) (prec esc : Nat)
    (c : FeatureCollection) (attrs : List Field) : FeatureCollection :=
  ⟨c.sref, "POLYGON",
    stdFID :: stdShape :: (migratedAttrs campo prec esc attrs ++
      (if targetPresent campo attrs then [] else [calcAddedField campo])),
    c.rows.map (fun r => delIdRow (slowRow areaHa c.sref campo (slowCopyNames campo attrs) r))⟩

end SupHA

namespace SupHA

/-! Oblique evaluation lemmas for the collaborator operations. -/

theorem describeAct_run (loc : String) (s : Storage) (cF : FeatureCollection)
    (hl : lookupColl s loc = some cF) : describeAct loc s = Except.ok (cF.sref, s) := by
  rw [describeAct, hl]

theorem listFieldsAct_run (loc : String) (s : Storage) (cF : FeatureCollection)
    (hl : lookupColl s loc = some cF) : listFieldsAct loc s = Except.ok (cF.fields, s) := by
  rw [listFieldsAct, hl]

theorem copyRowsAct_run (src dst : String) (names : List String) (s : Storage)
    (cs cd : FeatureCollection)
    (hsrc : lookupColl s src = some cs) (hdst : lookupColl s dst = some cd) :
    copyRowsAct src dst names s =
      Except.ok ((), updateColl s dst
        { cd with rows := cd.rows ++ cs.rows.map (fun r => ⟨r.geom, names.map (fun n => (n, getAttr r n))⟩) }) := by
  simp only [copyRowsAct, hsrc, hdst]

theorem calcGeometryAct_found (areaHa : Nat → Nat → Int) (loc fname : String)
    (s : Storage) (cF : FeatureCollection) (fT : Field)
    (hl : lookupColl s loc = some cF)
    (hf : cF.fields.find? (fun f => strLower f.name == strLower fname) = some fT) :
    calcGeometryAct areaHa loc fname s =
      Except.ok ((), updateColl s loc
        { cF with rows := cF.rows.map (fun r => ⟨r.geom, setAttr fT.name (areaHa r.geom cF.sref) r.attrs⟩) }) := by
  simp only [calcGeometryAct, hl, hf]

theorem calcGeometryAct_missing (areaHa : Nat → Nat → Int) (loc fname : String)
    (s : Storage) (cF : FeatureCollection)
    (hl : lookupColl s loc = some cF)
    (hf : cF.fields.find? (fun f => strLower f.name == strLower fname) = none) :
    calcGeometryAct areaHa loc fname s =
      Except.ok ((), updateColl s loc
        { cF with
            fields := cF.fields ++ [calcAddedField fname],
            rows := cF.rows.map (fun r => ⟨r.geom, setAttr fname (areaHa r.geom cF.sref) r.attrs⟩) }) := by
  simp only [calcGeometryAct, hl, hf]

theorem deleteFieldAct_found (loc n : String) (s : Storage) (cF : FeatureCollection) (fT : Field)
    (hl : lookupColl s loc = some cF)
    (hf : cF.fields.find? (fun f => strLower f.name == strLower n) = some fT) :
    deleteFieldAct loc n s =
      Except.ok ((), updateColl s loc
        { cF with
            fields := removeFieldCI n cF.fields,
            rows := cF.rows.map (fun r => ⟨r.geom, r.attrs.filter (fun kv => !(kv.1 == fT.name))⟩) }) := by
  simp only [deleteFieldAct, hl, hf]

theorem deleteAct_run (loc : String) (s : Storage) (cF : FeatureCollection)
    (hl : lookupColl s loc = some cF) : deleteAct loc s = Except.ok ((), removeColl s loc) := by
  rw [deleteAct, hl]

theorem copyFeaturesAct_run (src dst : String) (s : Storage) (cF : FeatureCollection)
    (hl : lookupColl s src = some cF) :
    copyFeaturesAct src dst s = Except.ok ((), updateColl s dst cF) := by
  rw [copyFeaturesAct, hl]

end SupHA

namespace SupHA

/-- Running the slow path, with the collaborator calls that build the
replacement all succeeding, reaches the destructive swap with the fully
populated replacement collection installed at the temporary location and the
original untouched; what remains is exactly the delete / copy-back / cleanup
sequence. -/
theorem slowPathCore_run (fo : FaultOracle) (areaHa : Nat → Nat → Int)
    (path campo temp : String) (prec esc : Nat) (s : Storage)
    (c : FeatureCollection) (attrs : List Field)
    (hc : lookupColl s path = some c)
    (htemp : temp ∉ s.map Prod.fst)
    (hattr : ∀ f ∈ attrs, ¬f.ftype = "OID" ∧ ¬f.ftype = "Geometry" ∧ normalizeFieldType f.ftype = f.ftype)
    (hnd : (attrs.map (fun f => strLower f.name)).Nodup)
    (hres : ∀ f ∈ attrs, ¬strLower f.name = "fid" ∧ ¬strLower f.name = "shape")
    (hcampo : CampoOk campo)
    (hfo1 : fo (Op.createFeatureclass temp) = false)
    (hfo2 : ∀ n, fo (Op.addField temp n) = false)
    (hfo3 : fo (Op.listFields temp) = false)
    (hfo4 : fo (Op.copyRows path temp) = false)
    (hfo5 : fo (Op.calcGeometry temp campo) = false)
    (hfo6 : fo (Op.deleteField temp "Id") = false) :
    slowPathCore fo areaHa path campo prec esc (stdFID :: stdShape :: attrs) c.sref temp s =
      mbind (svc fo (Op.delete path) (deleteAct path)) (fun _ =>
        mbind (svc fo (Op.copyFeatures temp path) (copyFeaturesAct temp path)) (fun _ =>
          mbind (svc fo (Op.delete temp) (deleteAct temp)) (fun _ => mpure true)))
        (updateColl s temp (tempFinalColl areaHa campo prec esc c attrs)) := by
  have hpt : ¬path = temp := fun h => htemp (h ▸ mem_keys_of_lookup s path c hc)
  have hattr2 : ∀ f ∈ attrs, ¬f.ftype = "OID" ∧ ¬f.ftype = "Geometry" :=
    fun f hf => ⟨(hattr f hf).1, (hattr f hf).2.1⟩
  rw [slowPathCore]
  -- step 1: CreateFeatureclass
  rw [mbind_ok _ _ s (updateColl s temp ⟨c.sref, "POLYGON", [stdFID, stdShape, stdId], []⟩) ()
    (svc_ok fo _ _ s _ () hfo1 rfl)]
  -- step 2: the field-walk
  have hF1 : processFields campo prec esc [stdFID, stdShape, stdId] (stdFID :: stdShape :: attrs)
      = [stdFID, stdShape, stdId] ++ migratedAttrs campo prec esc attrs := by
    rw [processFields_skip_heads campo prec esc _ attrs hcampo,
      processFields_std campo prec esc attrs hattr2 hnd hres hcampo]
  have hloop : addFieldsLoop fo temp campo prec esc (stdFID :: stdShape :: attrs)
      (updateColl s temp ⟨c.sref, "POLYGON", [stdFID, stdShape, stdId], []⟩) =
      (Except.ok (), updateColl s temp ⟨c.sref, "POLYGON",
        [stdFID, stdShape, stdId] ++ migratedAttrs campo prec esc attrs, []⟩) := by
    have h0 := addFieldsLoop_spec fo temp campo prec esc (stdFID :: stdShape :: attrs)
      (updateColl s temp ⟨c.sref, "POLYGON", [stdFID, stdShape, stdId], []⟩)
      ⟨c.sref, "POLYGON", [stdFID, stdShape, stdId], []⟩
      (lookup_update_eq _ _ _) hfo2
    rw [update_update] at h0
    rw [h0]
    rw [show processFields campo prec esc
        ((⟨c.sref, "POLYGON", [stdFID, stdShape, stdId], []⟩ : FeatureCollection).fields)
        (stdFID :: stdShape :: attrs) =
      processFields campo prec esc [stdFID, stdShape, stdId] (stdFID :: stdShape :: attrs) from rfl]
    rw [hF1]
  rw [mbind_ok _ _ _ _ () hloop]
  -- step 3: ListFields on the temporary collection
  have hs3 : svc fo (Op.listFields temp) (listFieldsAct temp)
      (updateColl s temp ⟨c.sref, "POLYGON",
        [stdFID, stdShape, stdId] ++ migratedAttrs campo prec esc attrs, []⟩) =
      (Except.ok ([stdFID, stdShape, stdId] ++ migratedAttrs campo prec esc attrs),
        updateColl s temp ⟨c.sref, "POLYGON",
          [stdFID, stdShape, stdId] ++ migratedAttrs campo prec esc attrs, []⟩) :=
    svc_ok fo _ _ _ _ _ hfo3 (listFieldsAct_run temp _ _ (lookup_update_eq _ _ _))
  rw [mbind_ok _ _ _ _ _ hs3]
  rw [copyNamesOf_eq campo prec esc attrs hattr hres hcampo]
  -- step 4: the cursor copy
  have hs4 : svc fo (Op.copyRows path temp) (copyRowsAct path temp (slowCopyNames campo attrs))
      (updateColl s temp ⟨c.sref, "POLYGON",
        [stdFID, stdShape, stdId] ++ migratedAttrs campo prec esc attrs, []⟩) =
      (Except.ok (),
        updateColl (updateColl s temp ⟨c.sref, "POLYGON",
          [stdFID, stdShape, stdId] ++ migratedAttrs campo prec esc attrs, []⟩) temp
          ⟨c.sref, "POLYGON", [stdFID, stdShape, stdId] ++ migratedAttrs campo prec esc attrs,
            c.rows.map (fun r => ⟨r.geom, (slowCopyNames campo attrs).map (fun n => (n, getAttr r n))⟩)⟩) := by
    apply svc_ok fo _ _ _ _ _ hfo4
    have h0 := copyRowsAct_run path temp (slowCopyNames campo attrs)
      (updateColl s temp ⟨c.sref, "POLYGON",
        [stdFID, stdShape, stdId] ++ migratedAttrs campo prec esc attrs, []⟩)
      c ⟨c.sref, "POLYGON", [stdFID, stdShape, stdId] ++ migratedAttrs campo prec esc attrs, []⟩
      (by rw [lookup_update_ne s temp path _ hpt]; exact hc) (lookup_update_eq _ _ _)
    exact h0
  rw [mbind_ok _ _ _ _ () hs4, update_update]
  -- step 5: the area computation on the temporary collection
  by_cases hp : targetPresent campo attrs = true
  · have hfind5 : (⟨c.sref, "POLYGON",
        [stdFID, stdShape, stdId] ++ migratedAttrs campo prec esc attrs,
        c.rows.map (fun r => ⟨r.geom, (slowCopyNames campo attrs).map (fun n => (n, getAttr r n))⟩)⟩ :
        FeatureCollection).fields.find? (fun f => strLower f.name == strLower campo)
        = some (mkTargetField campo prec esc) := by
      show (stdFID :: stdShape :: stdId :: migratedAttrs campo prec esc attrs).find?
        (fun f => strLower f.name == strLower campo) = some (mkTargetField campo prec esc)
      rw [find_skip_heads campo hcampo]
      exact find_migrated_present campo prec esc attrs hcampo hp
    have hs5 : svc fo (Op.calcGeometry temp campo) (calcGeometryAct areaHa temp campo)
        (updateColl s temp ⟨c.sref, "POLYGON",
          [stdFID, stdShape, stdId] ++ migratedAttrs campo prec esc attrs,
          c.rows.map (fun r => ⟨r.geom, (slowCopyNames campo attrs).map (fun n => (n, getAttr r n))⟩)⟩) =
        (Except.ok (),
          updateColl (updateColl s temp ⟨c.sref, "POLYGON",
            [stdFID, stdShape, stdId] ++ migratedAttrs campo prec esc attrs,
            c.rows.map (fun r => ⟨r.geom, (slowCopyNames campo attrs).map (fun n => (n, getAttr r n))⟩)⟩) temp
            ⟨c.sref, "POLYGON", [stdFID, stdShape, stdId] ++ migratedAttrs campo prec esc attrs,
              c.rows.map (fun r => slowRow areaHa c.sref campo (slowCopyNames campo attrs) r)⟩) := by
      apply svc_ok fo _ _ _ _ _ hfo5
      rw [calcGeometryAct_found areaHa temp campo _ _ (mkTargetField campo prec esc)
        (lookup_update_eq _ _ _) hfind5]
      rw [show ((⟨c.sref, "POLYGON",
          [stdFID, stdShape, stdId] ++ migratedAttrs campo prec esc attrs,
          c.rows.map (fun r => ⟨r.geom, (slowCopyNames campo attrs).map (fun n => (n, getAttr r n))⟩)⟩ :
          FeatureCollection).rows) = c.rows.map (fun r => ⟨r.geom, (slowCopyNames campo attrs).map (fun n => (n, getAttr r n))⟩) from rfl]
      rw [List.map_map]
      rfl
    rw [mbind_ok _ _ _ _ () hs5, update_update]
    -- step 6: DeleteField "Id", then the swap sequence remains
    rw [swapPhase]
    have hs6 : svc fo (Op.deleteField temp "Id") (deleteFieldAct temp "Id")
        (updateColl s temp ⟨c.sref, "POLYGON",
          [stdFID, stdShape, stdId] ++ migratedAttrs campo prec esc attrs,
          c.rows.map (fun r => slowRow areaHa c.sref campo (slowCopyNames campo attrs) r)⟩) =
        (Except.ok (),
          updateColl (updateColl s temp ⟨c.sref, "POLYGON",
            [stdFID, stdShape, stdId] ++ migratedAttrs campo prec esc attrs,
            c.rows.map (fun r => slowRow areaHa c.sref campo (slowCopyNames campo attrs) r)⟩) temp
            (tempFinalColl areaHa campo prec esc c attrs)) := by
      apply svc_ok fo _ _ _ _ _ hfo6
      rw [deleteFieldAct_found temp "Id" _
        ⟨c.sref, "POLYGON", [stdFID, stdShape, stdId] ++ migratedAttrs campo prec esc attrs,
          c.rows.map (fun r => slowRow areaHa c.sref campo (slowCopyNames campo attrs) r)⟩
        stdId (lookup_update_eq _ _ _) rfl]
      rw [show ((⟨c.sref, "POLYGON",
          [stdFID, stdShape, stdId] ++ migratedAttrs campo prec esc attrs,
          c.rows.map (fun r => slowRow areaHa c.sref campo (slowCopyNames campo attrs) r)⟩ :
          FeatureCollection).rows) = c.rows.map (fun r => slowRow areaHa c.sref campo (slowCopyNames campo attrs) r) from rfl]
      rw [List.map_map]
      rw [tempFinalColl, hp, if_pos rfl, List.append_nil]
      rfl
    rw [mbind_ok _ _ _ _ () hs6, update_update]
  · have hp' : targetPresent campo attrs = false := by
      revert hp; cases targetPresent campo attrs <;> simp
    have hfind5 : (⟨c.sref, "POLYGON",
        [stdFID, stdShape, stdId] ++ migratedAttrs campo prec esc attrs,
        c.rows.map (fun r => ⟨r.geom, (slowCopyNames campo attrs).map (fun n => (n, getAttr r n))⟩)⟩ :
        FeatureCollection).fields.find? (fun f => strLower f.name == strLower campo) = none := by
      show (stdFID :: stdShape :: stdId :: migratedAttrs campo prec esc attrs).find?
        (fun f => strLower f.name == strLower campo) = none
      rw [find_skip_heads campo hcampo]
      exact find_migrated_absent campo prec esc attrs hp'
    have hs5 : svc fo (Op.calcGeometry temp campo) (calcGeometryAct areaHa temp campo)
        (updateColl s temp ⟨c.sref, "POLYGON",
          [stdFID, stdShape, stdId] ++ migratedAttrs campo prec esc attrs,
          c.rows.map (fun r => ⟨r.geom, (slowCopyNames campo attrs).map (fun n => (n, getAttr r n))⟩)⟩) =
        (Except.ok (),
          updateColl (updateColl s temp ⟨c.sref, "POLYGON",
            [stdFID, stdShape, stdId] ++ migratedAttrs campo prec esc attrs,
            c.rows.map (fun r => ⟨r.geom, (slowCopyNames campo attrs).map (fun n => (n, getAttr r n))⟩)⟩) temp
            ⟨c.sref, "POLYGON",
              stdFID :: stdShape :: stdId :: (migratedAttrs campo prec esc attrs ++ [calcAddedField campo]),
              c.rows.map (fun r => slowRow areaHa c.sref campo (slowCopyNames campo attrs) r)⟩) := by
      apply svc_ok fo _ _ _ _ _ hfo5
      rw [calcGeometryAct_missing areaHa temp campo _ _ (lookup_update_eq _ _ _) hfind5]
      rw [show ((⟨c.sref, "POLYGON",
          [stdFID, stdShape, stdId] ++ migratedAttrs campo prec esc attrs,
          c.rows.map (fun r => ⟨r.geom, (slowCopyNames campo attrs).map (fun n => (n, getAttr r n))⟩)⟩ :
          FeatureCollection).rows) = c.rows.map (fun r => ⟨r.geom, (slowCopyNames campo attrs).map (fun n => (n, getAttr r n))⟩) from rfl]
      rw [List.map_map]
      rfl
    rw [mbind_ok _ _ _ _ () hs5, update_update]
    rw [swapPhase]
    have hs6 : svc fo (Op.deleteField temp "Id") (deleteFieldAct temp "Id")
        (updateColl s temp ⟨c.sref, "POLYGON",
          stdFID :: stdShape :: stdId :: (migratedAttrs campo prec esc attrs ++ [calcAddedField campo]),
          c.rows.map (fun r => slowRow areaHa c.sref campo (slowCopyNames campo attrs) r)⟩) =
        (Except.ok (),
          updateColl (updateColl s temp ⟨c.sref, "POLYGON",
            stdFID :: stdShape :: stdId :: (migratedAttrs campo prec esc attrs ++ [calcAddedField campo]),
            c.rows.map (fun r => slowRow areaHa c.sref campo (slowCopyNames campo attrs) r)⟩) temp
            (tempFinalColl areaHa campo prec esc c attrs)) := by
      apply svc_ok fo _ _ _ _ _ hfo6
      rw [deleteFieldAct_found temp "Id" _
        ⟨c.sref, "POLYGON", stdFID :: stdShape :: stdId :: (migratedAttrs campo prec esc attrs ++ [calcAddedField campo]),
          c.rows.map (fun r => slowRow areaHa c.sref campo (slowCopyNames campo attrs) r)⟩
        stdId (lookup_update_eq _ _ _) rfl]
      rw [show ((⟨c.sref, "POLYGON",
          stdFID :: stdShape :: stdId :: (migratedAttrs campo prec esc attrs ++ [calcAddedField campo]),
          c.rows.map (fun r => slowRow areaHa c.sref campo (slowCopyNames campo attrs) r)⟩ :
          FeatureCollection).rows) = c.rows.map (fun r => slowRow areaHa c.sref campo (slowCopyNames campo attrs) r) from rfl]
      rw [List.map_map]
      rw [tempFinalColl, hp', if_neg Bool.false_ne_true]
      rfl
    rw [mbind_ok _ _ _ _ () hs6, update_update]

end SupHA

namespace SupHA

theorem freshLoc_not_mem (s : Storage) : freshLoc s ∉ s.map Prod.fst :=
  fun h => (freshLoc_ne_of_mem s _ h) rfl

/-- The fast path (lines 41-57): when the target field is present with the
requested type, precision and scale, the call only recomputes that field's
values in place and succeeds. -/
theorem st_trans_fast_run (fo : FaultOracle) (areaHa : Nat → Nat → Int)
    (path campo : String) (prec esc : Nat) (s : Storage)
    (c : FeatureCollection) (fObj : Field)
    (hc : lookupColl s path = some c)
    (hfind : c.fields.find? (fun f => strLower f.name == strLower campo) = some fObj)
    (hwf : fObj.ftype = "Double" ∧ fObj.precision = prec ∧ fObj.scale = esc)
    (hfoD : fo (Op.describe path) = false)
    (hfoL : fo (Op.listFields path) = false)
    (hfoC : fo (Op.calcGeometry path campo) = false) :
    st_trans_sup_ha fo areaHa path campo prec esc s =
      (true, updateColl s path
        { c with rows := c.rows.map (fun r => ⟨r.geom, setAttr fObj.name (areaHa r.geom c.sref) r.attrs⟩) },
        []) := by
  have hcond : (fObj.ftype == "Double" && fObj.precision == prec && fObj.scale == esc) = true := by
    rw [beqT hwf.1]
    rw [show (fObj.precision == prec) = true from beq_iff_eq.mpr hwf.2.1]
    rw [show (fObj.scale == esc) = true from beq_iff_eq.mpr hwf.2.2]
    rfl
  rw [st_trans_sup_ha, if_pos (by rw [hc]; rfl)]
  rw [st_trans_body]
  rw [mbind_ok _ _ s s c.sref (svc_ok fo _ _ s s c.sref hfoD (describeAct_run path s c hc))]
  rw [mbind_ok _ _ s s c.fields (svc_ok fo _ _ s s c.fields hfoL (listFieldsAct_run path s c hc))]
  rw [hfind]
  dsimp only
  rw [if_pos hcond]
  rw [mbind_ok _ _ s _ ()
    (svc_ok fo _ _ s _ () hfoC (calcGeometryAct_found areaHa path campo s c fObj hc hfind))]
  rw [mpure_eq]

end SupHA

namespace SupHA

/-- The try-body on the slow path: after reading the schema and failing the
well-formedness check (or finding no target field at all), the call builds
the replacement at the fresh temporary location and stands before the
destructive swap. -/
theorem st_trans_body_slow (fo : FaultOracle) (areaHa : Nat → Nat → Int)
    (path campo : String) (prec esc : Nat) (s : Storage)
    (c : FeatureCollection) (attrs : List Field)
    (hc : lookupColl s path = some c)
    (hfields : c.fields = stdFID :: stdShape :: attrs)
    (hslow : ∀ fObj, attrs.find? (fun f => strLower f.name == strLower campo) = some fObj →
        ¬(fObj.ftype = "Double" ∧ fObj.precision = prec ∧ fObj.scale = esc))
    (hattr : ∀ f ∈ attrs, ¬f.ftype = "OID" ∧ ¬f.ftype = "Geometry" ∧ normalizeFieldType f.ftype = f.ftype)
    (hnd : (attrs.map (fun f => strLower f.name)).Nodup)
    (hres : ∀ f ∈ attrs, ¬strLower f.name = "fid" ∧ ¬strLower f.name = "shape")
    (hcampo : CampoOk campo)
    (hfoD : fo (Op.describe path) = false)
    (hfoL : fo (Op.listFields path) = false)
    (hfo1 : fo (Op.createFeatureclass (freshLoc s)) = false)
    (hfo2 : ∀ n, fo (Op.addField (freshLoc s) n) = false)
    (hfo3 : fo (Op.listFields (freshLoc s)) = false)
    (hfo4 : fo (Op.copyRows path (freshLoc s)) = false)
    (hfo5 : fo (Op.calcGeometry (freshLoc s) campo) = false)
    (hfo6 : fo (Op.deleteField (freshLoc s) "Id") = false) :
    st_trans_body fo areaHa path campo prec esc s =
      mbind (svc fo (Op.delete path) (deleteAct path)) (fun _ =>
        mbind (svc fo (Op.copyFeatures (freshLoc s) path) (copyFeaturesAct (freshLoc s) path)) (fun _ =>
          mbind (svc fo (Op.delete (freshLoc s)) (deleteAct (freshLoc s))) (fun _ => mpure true)))
        (updateColl s (freshLoc s) (tempFinalColl areaHa campo prec esc c attrs)) := by
  rw [st_trans_body]
  rw [mbind_ok _ _ s s c.sref (svc_ok fo _ _ s s c.sref hfoD (describeAct_run path s c hc))]
  rw [mbind_ok _ _ s s c.fields (svc_ok fo _ _ s s c.fields hfoL (listFieldsAct_run path s c hc))]
  rw [hfields]
  rw [find_skip_fid_shape campo hcampo attrs]
  cases hfd : attrs.find? (fun f => strLower f.name == strLower campo) with
  | none =>
      dsimp only
      show slowPathCore fo areaHa path campo prec esc (stdFID :: stdShape :: attrs) c.sref (freshLoc s) s = _
      exact slowPathCore_run fo areaHa path campo (freshLoc s) prec esc s c attrs hc
        (freshLoc_not_mem s) hattr hnd hres hcampo hfo1 hfo2 hfo3 hfo4 hfo5 hfo6
  | some fObj =>
      dsimp only
      rw [if_neg (by
        intro h
        rw [Bool.and_eq_true, Bool.and_eq_true] at h
        exact hslow fObj hfd ⟨beq_iff_eq.mp h.1.1, beq_iff_eq.mp h.1.2, beq_iff_eq.mp h.2⟩)]
      show slowPathCore fo areaHa path campo prec esc (stdFID :: stdShape :: attrs) c.sref (freshLoc s) s = _
      exact slowPathCore_run fo areaHa path campo (freshLoc s) prec esc s c attrs hc
        (freshLoc_not_mem s) hattr hnd hres hcampo hfo1 hfo2 hfo3 hfo4 hfo5 hfo6

/-- The final storage of a successful slow-path call. -/
def slowFinalStorage (areaHa : Nat → Nat → Int) (path campo : String) (prec esc : Nat)
    (s : Storage) (c : FeatureCollection) (attrs : List Field) : Storage :=
  removeColl
    (updateColl
      (removeColl (updateColl s (freshLoc s) (tempFinalColl areaHa campo prec esc c attrs)) path)
      path (tempFinalColl areaHa campo prec esc c attrs))
    (freshLoc s)

/-- A fault-free slow-path call succeeds and swaps the rebuilt collection
into the original location. -/
theorem st_trans_slow_ok (areaHa : Nat → Nat → Int)
    (path campo : String) (prec esc : Nat) (s : Storage)
    (c : FeatureCollection) (attrs : List Field)
    (hc : lookupColl s path = some c)
    (hfields : c.fields = stdFID :: stdShape :: attrs)
    (hslow : ∀ fObj, attrs.find? (fun f => strLower f.name == strLower campo) = some fObj →
        ¬(fObj.ftype = "Double" ∧ fObj.precision = prec ∧ fObj.scale = esc))
    (hattr : ∀ f ∈ attrs, ¬f.ftype = "OID" ∧ ¬f.ftype = "Geometry" ∧ normalizeFieldType f.ftype = f.ftype)
    (hnd : (attrs.map (fun f => strLower f.name)).Nodup)
    (hres : ∀ f ∈ attrs, ¬strLower f.name = "fid" ∧ ¬strLower f.name = "shape")
    (hcampo : CampoOk campo) :
    st_trans_sup_ha noFault areaHa path campo prec esc s =
      (true, slowFinalStorage areaHa path campo prec esc s c attrs, []) := by
  have hpt : ¬path = freshLoc s := freshLoc_ne_of_lookup s path c hc
  rw [st_trans_sup_ha, if_pos (by rw [hc]; rfl)]
  rw [st_trans_body_slow noFault areaHa path campo prec esc s c attrs hc hfields hslow
    hattr hnd hres hcampo rfl rfl rfl (fun _ => rfl) rfl rfl rfl rfl]
  have h1 : lookupColl (updateColl s (freshLoc s) (tempFinalColl areaHa campo prec esc c attrs)) path = some c := by
    rw [lookup_update_ne s (freshLoc s) path _ hpt]
    exact hc
  rw [mbind_ok _ _ _ _ () (svc_ok noFault _ _ _ _ () rfl (deleteAct_run path _ c h1))]
  have h2 : lookupColl
      (removeColl (updateColl s (freshLoc s) (tempFinalColl areaHa campo prec esc c attrs)) path)
      (freshLoc s) = some (tempFinalColl areaHa campo prec esc c attrs) := by
    rw [lookup_remove_ne _ path (freshLoc s) (fun h => hpt h.symm)]
    exact lookup_update_eq _ _ _
  rw [mbind_ok _ _ _ _ ()
    (svc_ok noFault _ _ _ _ () rfl (copyFeaturesAct_run (freshLoc s) path _ _ h2))]
  have h3 : lookupColl
      (updateColl
        (removeColl (updateColl s (freshLoc s) (tempFinalColl areaHa campo prec esc c attrs)) path)
        path (tempFinalColl areaHa campo prec esc c attrs))
      (freshLoc s) = some (tempFinalColl areaHa campo prec esc c attrs) := by
    rw [lookup_update_ne _ path (freshLoc s) _ (fun h => hpt h.symm)]
    exact h2
  rw [mbind_ok _ _ _ _ () (svc_ok noFault _ _ _ _ () rfl (deleteAct_run (freshLoc s) _ _ h3))]
  rw [mpure_eq]
  rfl

theorem slowFinal_lookup_path (areaHa : Nat → Nat → Int) (path campo : String)
    (prec esc : Nat) (s : Storage) (c : FeatureCollection) (attrs : List Field)
    (hpt : ¬path = freshLoc s) :
    lookupColl (slowFinalStorage areaHa path campo prec esc s c attrs) path
      = some (tempFinalColl areaHa campo prec esc c attrs) := by
  rw [slowFinalStorage, lookup_remove_ne _ (freshLoc s) path hpt, lookup_update_eq]

theorem slowFinal_lookup_temp (areaHa : Nat → Nat → Int) (path campo : String)
    (prec esc : Nat) (s : Storage) (c : FeatureCollection) (attrs : List Field)
    (hkeys : keysND s) :
    lookupColl (slowFinalStorage areaHa path campo prec esc s c attrs) (freshLoc s) = none := by
  rw [slowFinalStorage]
  exact lookup_remove_self _ _
    (keysND_update _ _ _ (keysND_remove _ _ (keysND_update _ _ _ hkeys)))

theorem slowFinal_lookup_other (areaHa : Nat → Nat → Int) (path campo : String)
    (prec esc : Nat) (s : Storage) (c : FeatureCollection) (attrs : List Field)
    (k : String) (hk1 : ¬k = path) (hk2 : ¬k = freshLoc s) :
    lookupColl (slowFinalStorage areaHa path campo prec esc s c attrs) k = lookupColl s k := by
  rw [slowFinalStorage, lookup_remove_ne _ (freshLoc s) k hk2,
    lookup_update_ne _ path k _ hk1, lookup_remove_ne _ path k hk1,
    lookup_update_ne _ (freshLoc s) k _ hk2]

end SupHA

namespace SupHA

/-! ### Attribute-row lemmas -/

theorem lookup_cons_self (n : String) (v : Int) (t : List (String × Int)) :
    List.lookup n ((n, v) :: t) = some v := by
  simp [List.lookup]

theorem lookup_cons_ne (n k : String) (v : Int) (t : List (String × Int)) (h : ¬n = k) :
    List.lookup n ((k, v) :: t) = List.lookup n t := by
  simp only [List.lookup, beqF h]

theorem setAttr_setAttr (n : String) (v w : Int) (l : List (String × Int)) :
    setAttr n v (setAttr n w l) = setAttr n v l := by
  induction l with
  | nil => simp [setAttr]
  | cons kv t ih =>
      obtain ⟨k, x⟩ := kv
      by_cases h : k = n
      · subst h
        rw [setAttr, if_pos rfl, setAttr, if_pos rfl, setAttr, if_pos rfl]
      · rw [setAttr, if_neg h, setAttr, if_neg h, setAttr, if_neg h, ih]

theorem setAttr_absent (n : String) (v : Int) (l : List (String × Int))
    (h : ∀ kv ∈ l, ¬kv.1 = n) : setAttr n v l = l ++ [(n, v)] := by
  induction l with
  | nil => rw [setAttr, List.nil_append]
  | cons kv t ih =>
      obtain ⟨k, x⟩ := kv
      rw [setAttr, if_neg (h (k, x) (List.mem_cons_self _ _)), List.cons_append]
      rw [ih (fun kv hkv => h kv (List.mem_cons_of_mem _ hkv))]

theorem setAttr_lookup_self (n : String) (v : Int) (l : List (String × Int))
    (h : l.lookup n = some v) : setAttr n v l = l := by
  induction l with
  | nil => simp [List.lookup] at h
  | cons kv t ih =>
      obtain ⟨k, x⟩ := kv
      by_cases hk : k = n
      · subst hk
        rw [lookup_cons_self] at h
        rw [setAttr, if_pos rfl, Option.some_inj.mp h]
      · rw [lookup_cons_ne n k x t (fun h' => hk h'.symm)] at h
        rw [setAttr, if_neg hk, ih h]

theorem lookup_append_absent (n : String) (l1 l2 : List (String × Int))
    (h : ∀ kv ∈ l1, ¬kv.1 = n) : (l1 ++ l2).lookup n = l2.lookup n := by
  induction l1 with
  | nil => rw [List.nil_append]
  | cons kv t ih =>
      obtain ⟨k, x⟩ := kv
      rw [List.cons_append,
        lookup_cons_ne n k x _ (fun h' => h (k, x) (List.mem_cons_self _ _) h'.symm)]
      exact ih (fun kv hkv => h kv (List.mem_cons_of_mem _ hkv))

theorem getAttr_setAttr_self (n : String) (v : Int) (g : Nat) (l : List (String × Int)) :
    getAttr ⟨g, setAttr n v l⟩ n = v := by
  rw [getAttr]
  induction l with
  | nil => rw [setAttr, lookup_cons_self]; rfl
  | cons kv t ih =>
      obtain ⟨k, x⟩ := kv
      by_cases hk : k = n
      · subst hk
        rw [setAttr, if_pos rfl, lookup_cons_self]
        rfl
      · rw [setAttr, if_neg hk, lookup_cons_ne _ k x _ (fun h => hk h.symm)]
        exact ih

theorem getAttr_setAttr_other (n m : String) (v : Int) (g : Nat) (l : List (String × Int))
    (h : ¬m = n) : getAttr ⟨g, setAttr n v l⟩ m = getAttr ⟨g, l⟩ m := by
  rw [getAttr, getAttr]
  congr 1
  induction l with
  | nil => rw [setAttr, lookup_cons_ne m n v [] h]
  | cons kv t ih =>
      obtain ⟨k, x⟩ := kv
      by_cases hk : k = n
      · subst hk
        rw [setAttr, if_pos rfl, lookup_cons_ne m _ v t h]
        by_cases hm : m = k
        · subst hm
          exact absurd rfl h
        · rw [lookup_cons_ne m k x t hm]
      · rw [setAttr, if_neg hk]
        by_cases hm : m = k
        · subst hm
          rw [lookup_cons_self, lookup_cons_self]
        · rw [lookup_cons_ne m k x _ hm, lookup_cons_ne m k x t hm, ih]

/-- Every name the cursor copy transfers differs from the target name (the
projection of line 93 excludes the target field). -/
theorem slowCopyNames_ne_campo (campo : String) (attrs : List Field) :
    ∀ n ∈ slowCopyNames campo attrs, ¬strLower n = strLower campo := by
  intro n hn
  rw [slowCopyNames] at hn
  obtain ⟨f, hf, hname⟩ := List.mem_map.mp hn
  have hcond := List.of_mem_filter hf
  rw [Bool.and_eq_true] at hcond
  rw [← hname]
  intro h'
  rw [show (!(strLower f.name == strLower campo)) = false by rw [beqT h']; rfl] at hcond
  exact Bool.false_ne_true hcond.2

/-- The target entry of a rebuilt row binds the area of the feature's own
geometry in hectares. -/
theorem slowRow_target_lookup (areaHa : Nat → Nat → Int) (sref : Nat) (campo : String)
    (attrs : List Field) (r : Feature)
    (hcampoId : ¬campo = "Id") :
    (delIdRow (slowRow areaHa sref campo (slowCopyNames campo attrs) r)).attrs.lookup campo
      = some (areaHa r.geom sref) := by
  rw [slowRow, delIdRow]
  have hbase : ∀ kv ∈ (slowCopyNames campo attrs).map (fun n => (n, getAttr r n)), ¬kv.1 = campo := by
    intro kv hkv h1
    obtain ⟨n, hn, hkv'⟩ := List.mem_map.mp hkv
    have hne := slowCopyNames_ne_campo campo attrs n hn
    rw [← hkv'] at h1
    have h2 : n = campo := h1
    exact hne (by rw [h2])
  rw [setAttr_absent campo (areaHa r.geom sref) _ hbase]
  rw [List.filter_append]
  rw [show List.filter (fun kv => !(kv.1 == "Id")) [(campo, areaHa r.geom sref)]
      = [(campo, areaHa r.geom sref)] by
    rw [List.filter_cons_of_pos (by rw [beqF hcampoId]; rfl), List.filter_nil]]
  rw [lookup_append_absent campo _ _ (by
    intro kv hkv
    exact hbase kv (List.mem_of_mem_filter hkv))]
  rw [lookup_cons_self]

/-- The target value of a rebuilt row: the area of the feature's own
geometry in hectares. -/
theorem slowRow_target_value (areaHa : Nat → Nat → Int) (sref : Nat) (campo : String)
    (attrs : List Field) (r : Feature)
    (hcampoId : ¬campo = "Id") :
    getAttr (delIdRow (slowRow areaHa sref campo (slowCopyNames campo attrs) r)) campo
      = areaHa r.geom sref := by
  rw [getAttr, slowRow_target_lookup areaHa sref campo attrs r hcampoId]
  rfl

end SupHA

namespace SupHA

theorem map_congr_self {α β : Type} (f g : α → β) (l : List α)
    (h : ∀ x ∈ l, f x = g x) : l.map f = l.map g := by
  induction l with
  | nil => rfl
  | cons x t ih =>
      rw [List.map_cons, List.map_cons, h x (List.mem_cons_self _ _),
        ih (fun y hy => h y (List.mem_cons_of_mem _ hy))]

/-- When no attribute field is named `id` (up to case), the migration is a
pointwise map: the target slot becomes the corrected definition, every other
field survives unchanged. -/
theorem migratedAttrs_no_id (campo : String) (prec esc : Nat) (attrs : List Field)
    (hid : ∀ f ∈ attrs, ¬strLower f.name = "id")
    (hfix : ∀ f ∈ attrs, normalizeFieldType f.ftype = f.ftype) :
    migratedAttrs campo prec esc attrs
      = attrs.map (fun f => if strLower f.name == strLower campo then mkTargetField campo prec esc else f) := by
  induction attrs with
  | nil => rfl
  | cons f rest ih =>
      have hmemf : f ∈ f :: rest := List.mem_cons_self f rest
      rw [migratedAttrs, List.filterMap_cons, List.map_cons]
      by_cases hcam : strLower f.name = strLower campo
      · rw [show migrateAttr campo prec esc f = some (mkTargetField campo prec esc) by
          rw [migrateAttr, if_neg (by rw [beqF (hid f hmemf)]; exact Bool.false_ne_true),
            if_pos (beqT hcam)]]
        rw [if_pos (beqT hcam), ← migratedAttrs]
        rw [ih (fun g hg => hid g (List.mem_cons_of_mem _ hg))
          (fun g hg => hfix g (List.mem_cons_of_mem _ hg))]
      · rw [show migrateAttr campo prec esc f = some (copyFieldOf f) by
          rw [migrateAttr, if_neg (by rw [beqF (hid f hmemf)]; exact Bool.false_ne_true),
            if_neg (by rw [beqF hcam]; exact Bool.false_ne_true)]]
        rw [if_neg (by rw [beqF hcam]; exact Bool.false_ne_true), ← migratedAttrs]
        rw [copyFieldOf_eq_self f (hfix f hmemf)]
        rw [ih (fun g hg => hid g (List.mem_cons_of_mem _ hg))
          (fun g hg => hfix g (List.mem_cons_of_mem _ hg))]

/-- Locating the target field in the rebuilt schema when it was present in
the source: the corrected definition, named exactly `campo`. -/
theorem tempFinal_find_present (areaHa : Nat → Nat → Int) (campo : String) (prec esc : Nat)
    (c : FeatureCollection) (attrs : List Field)
    (hcampo : CampoOk campo) (hp : targetPresent campo attrs = true) :
    (tempFinalColl areaHa campo prec esc c attrs).fields.find?
        (fun f => strLower f.name == strLower campo) = some (mkTargetField campo prec esc) := by
  show (stdFID :: stdShape :: (migratedAttrs campo prec esc attrs ++
      (if targetPresent campo attrs then [] else [calcAddedField campo]))).find?
      (fun f => strLower f.name == strLower campo) = some (mkTargetField campo prec esc)
  rw [hp, if_pos rfl, List.append_nil, find_skip_fid_shape campo hcampo]
  exact find_migrated_present campo prec esc attrs hcampo hp

theorem tempFinal_rows_length (areaHa : Nat → Nat → Int) (campo : String) (prec esc : Nat)
    (c : FeatureCollection) (attrs : List Field) :
    (tempFinalColl areaHa campo prec esc c attrs).rows.length = c.rows.length := by
  show (c.rows.map _).length = c.rows.length
  rw [List.length_map]

end SupHA

namespace SupHA

/-! ### Concrete instances for witnesses and counterexamples -/

/-- A sample area function: deterministic, distinct per geometry. -/
def areaDemo : Nat → Nat → Int := fun g sr => (g : Int) * 100 + (sr : Int)

/-- An ordinary attribute field. -/
def nameField : Field := ⟨"Name", "String", 0, 0, 50, "Name", true, false, ""⟩

/-- A malformed target field (text instead of Double 8.2). -/
def supHaText : Field := ⟨"Sup_ha", "String", 0, 0, 10, "Sup_ha", true, false, ""⟩

/-- A well-formed target field (Double with precision 8, scale 2). -/
def supHaGood : Field := ⟨"Sup_ha", "Double", 8, 2, 8, "Sup_ha", true, false, ""⟩

/-- A genuine attribute field named `Id`. -/
def idAttr : Field := ⟨"Id", "Integer", 6, 0, 6, "Id", true, false, ""⟩

/-- A malformed target field whose name matches only up to case. -/
def supHaUpper : Field := ⟨"SUP_HA", "String", 0, 0, 10, "SUP_HA", true, false, ""⟩

/-- Collection with a well-formed target field. -/
def collFast : FeatureCollection :=
  ⟨7, "POLYGON", [stdFID, stdShape, nameField, supHaGood],
    [⟨3, [("Name", 1), ("Sup_ha", 0)]⟩, ⟨5, [("Name", 2), ("Sup_ha", 0)]⟩]⟩

/-- Collection with a malformed (text) target field. -/
def collMal : FeatureCollection :=
  ⟨7, "POLYGON", [stdFID, stdShape, nameField, supHaText],
    [⟨3, [("Name", 1), ("Sup_ha", 0)]⟩, ⟨5, [("Name", 2), ("Sup_ha", 0)]⟩]⟩

/-- Collection with no target field. -/
def collAbs : FeatureCollection :=
  ⟨7, "POLYGON", [stdFID, stdShape, nameField], [⟨3, [("Name", 1)]⟩]⟩

/-- Collection with a genuine `Id` field and a malformed target field. -/
def collId : FeatureCollection :=
  ⟨7, "POLYGON", [stdFID, stdShape, idAttr, nameField, supHaText],
    [⟨3, [("Id", 9), ("Name", 1), ("Sup_ha", 0)]⟩]⟩

/-- Collection whose target field matches the parameter only up to case. -/
def collUpper : FeatureCollection :=
  ⟨7, "POLYGON", [stdFID, stdShape, nameField, supHaUpper],
    [⟨3, [("Name", 1), ("SUP_HA", 0)]⟩]⟩

/-! ### C3: nonexistent input location -/

/-- C3: when the input location does not resolve to an existing collection,
`st_trans_sup_ha` returns failure immediately, reports the not-found
diagnostic of line 22, and leaves the storage untouched. -/
theorem c3_not_found (fo : FaultOracle) (areaHa : Nat → Nat → Int)
    (path campo : String) (prec esc : Nat) (s : Storage)
    (h : lookupColl s path = none) :
    st_trans_sup_ha fo areaHa path campo prec esc s = (false, s, [notFoundMsg path]) := by
  rw [st_trans_sup_ha, h]
  rfl

/-- Witness for C3 at a concrete empty storage. -/
theorem c3_not_found_witness :
    lookupColl [] "a.shp" = none ∧
    st_trans_sup_ha noFault areaDemo "a.shp" "Sup_ha" 8 2 [] =
      (false, [], [notFoundMsg "a.shp"]) :=
  ⟨rfl, c3_not_found noFault areaDemo "a.shp" "Sup_ha" 8 2 [] rfl⟩

/-! ### C6: all faults are caught at the top level -/

/-- C6: whatever the fault oracle injects, a raised fault inside the try-body
never propagates: the call returns the boolean `false` together with the
diagnostic, with the storage as mutated so far. -/
theorem c6_catches (fo : FaultOracle) (areaHa : Nat → Nat → Int)
    (path campo : String) (prec esc : Nat) (s s' : Storage) (m : String)
    (hex : (lookupColl s path).isSome = true)
    (hbody : st_trans_body fo areaHa path campo prec esc s = (Except.error m, s')) :
    st_trans_sup_ha fo areaHa path campo prec esc s = (false, s', [m]) := by
  rw [st_trans_sup_ha, if_pos hex, hbody]

/-- The oracle that fails every collaborator call. -/
def failAll : FaultOracle := fun _ => true

/-- Witness for C6: with every collaborator call failing, the first call of
the body raises and the procedure converts it into a `false` result plus the
diagnostic. -/
theorem c6_catches_witness :
    (lookupColl [("a.shp", collFast)] "a.shp").isSome = true ∧
    st_trans_body failAll areaDemo "a.shp" "Sup_ha" 8 2 [("a.shp", collFast)] =
      (Except.error "ExecuteError: injected collaborator fault", [("a.shp", collFast)]) ∧
    st_trans_sup_ha failAll areaDemo "a.shp" "Sup_ha" 8 2 [("a.shp", collFast)] =
      (false, [("a.shp", collFast)], ["ExecuteError: injected collaborator fault"]) :=
  ⟨rfl, rfl, c6_catches failAll areaDemo "a.shp" "Sup_ha" 8 2 _ _ _ rfl rfl⟩

/-! ### C4: the fast path -/

/-- C4: when the target field is present, numeric, and has exactly the
requested precision and scale, the call succeeds, recomputes only the target
field's values (each to the feature's own geometry area), and leaves the
schema, the row order, every other attribute value, and every other
location untouched. -/
theorem c4_fast_path (areaHa : Nat → Nat → Int) (path campo : String)
    (prec esc : Nat) (s : Storage) (c : FeatureCollection) (fObj : Field)
    (hc : lookupColl s path = some c)
    (hfind : c.fields.find? (fun f => strLower f.name == strLower campo) = some fObj)
    (hwf : fObj.ftype = "Double" ∧ fObj.precision = prec ∧ fObj.scale = esc) :
    st_trans_sup_ha noFault areaHa path campo prec esc s =
      (true, updateColl s path
        { c with rows := c.rows.map (fun r => ⟨r.geom, setAttr fObj.name (areaHa r.geom c.sref) r.attrs⟩) },
        []) ∧
    (∀ k, ¬k = path →
      lookupColl (st_trans_sup_ha noFault areaHa path campo prec esc s).2.1 k = lookupColl s k) ∧
    (∀ r ∈ c.rows, getAttr ⟨r.geom, setAttr fObj.name (areaHa r.geom c.sref) r.attrs⟩ fObj.name
        = areaHa r.geom c.sref) ∧
    (∀ r ∈ c.rows, ∀ m, ¬m = fObj.name →
      getAttr ⟨r.geom, setAttr fObj.name (areaHa r.geom c.sref) r.attrs⟩ m = getAttr r m) := by
  have hrun := st_trans_fast_run noFault areaHa path campo prec esc s c fObj hc hfind hwf rfl rfl rfl
  refine ⟨hrun, ?_, ?_, ?_⟩
  · intro k hk
    rw [hrun]
    exact lookup_update_ne s path k _ hk
  · intro r _
    exact getAttr_setAttr_self fObj.name (areaHa r.geom c.sref) r.geom r.attrs
  · intro r _ m hm
    exact getAttr_setAttr_other fObj.name m (areaHa r.geom c.sref) r.geom r.attrs hm

/-- Witness for C4 at a concrete collection with the well-formed target. -/
theorem c4_fast_path_witness :
    lookupColl [("a.shp", collFast)] "a.shp" = some collFast ∧
    collFast.fields.find? (fun f => strLower f.name == strLower "Sup_ha") = some supHaGood ∧
    (supHaGood.ftype = "Double" ∧ supHaGood.precision = 8 ∧ supHaGood.scale = 2) ∧
    (st_trans_sup_ha noFault areaDemo "a.shp" "Sup_ha" 8 2 [("a.shp", collFast)] =
      (true, updateColl [("a.shp", collFast)] "a.shp"
        { collFast with rows := collFast.rows.map (fun r => ⟨r.geom, setAttr supHaGood.name (areaDemo r.geom collFast.sref) r.attrs⟩) },
        []) ∧
     (∀ k, ¬k = "a.shp" →
       lookupColl (st_trans_sup_ha noFault areaDemo "a.shp" "Sup_ha" 8 2 [("a.shp", collFast)]).2.1 k
         = lookupColl [("a.shp", collFast)] k) ∧
     (∀ r ∈ collFast.rows,
       getAttr ⟨r.geom, setAttr supHaGood.name (areaDemo r.geom collFast.sref) r.attrs⟩ supHaGood.name
         = areaDemo r.geom collFast.sref) ∧
     (∀ r ∈ collFast.rows, ∀ m, ¬m = supHaGood.name →
       getAttr ⟨r.geom, setAttr supHaGood.name (areaDemo r.geom collFast.sref) r.attrs⟩ m = getAttr r m)) :=
  ⟨rfl, rfl, by decide,
    c4_fast_path areaDemo "a.shp" "Sup_ha" 8 2 [("a.shp", collFast)] collFast supHaGood rfl rfl (by decide)⟩

end SupHA

namespace SupHA

/-! ### C1: slow path on a malformed present target -/

/-- Counterexample to C1 as stated: a collection holding a genuine attribute
field named `Id` (next to a malformed target).  The call succeeds, yet the
`Id` field does not survive — so not every other field's relative order is
unchanged. -/
theorem c1_counterexample :
    (st_trans_sup_ha noFault areaDemo "a.shp" "Sup_ha" 8 2 [("a.shp", collId)]).1 = true ∧
    "Id" ∈ collId.fields.map (fun f => f.name) ∧
    ((lookupColl (st_trans_sup_ha noFault areaDemo "a.shp" "Sup_ha" 8 2 [("a.shp", collId)]).2.1
        "a.shp").map (fun c' => c'.fields.map (fun f => f.name)))
      = some ["FID", "Shape", "Name", "Sup_ha"] := by
  refine ⟨?_, by decide, ?_⟩ <;> rfl

/-- C1 (amended): for a collection whose target field exists but is
malformed, and **none of whose attribute fields is named `Id` up to case**
(such fields are silently dropped by the migration, see the `Id` deletion of
line 113), a fault-free call succeeds, leaves the collection at the original
location with the target field redefined to `DOUBLE` with the requested
precision and scale at its original slot, keeps every other field unchanged
in relative order, preserves the row count, and touches no other location. -/
theorem c1_slow_malformed (areaHa : Nat → Nat → Int) (path campo : String)
    (prec esc : Nat) (s : Storage) (c : FeatureCollection) (attrs : List Field) (fObj : Field)
    (hc : lookupColl s path = some c)
    (hfields : c.fields = stdFID :: stdShape :: attrs)
    (hattr : ∀ f ∈ attrs, ¬f.ftype = "OID" ∧ ¬f.ftype = "Geometry" ∧ normalizeFieldType f.ftype = f.ftype)
    (hnd : (attrs.map (fun f => strLower f.name)).Nodup)
    (hres : ∀ f ∈ attrs, ¬strLower f.name = "fid" ∧ ¬strLower f.name = "shape")
    (hid : ∀ f ∈ attrs, ¬strLower f.name = "id")
    (hcampo : CampoOk campo)
    (hfind : attrs.find? (fun f => strLower f.name == strLower campo) = some fObj)
    (hmal : ¬(fObj.ftype = "Double" ∧ fObj.precision = prec ∧ fObj.scale = esc)) :
    (st_trans_sup_ha noFault areaHa path campo prec esc s).1 = true ∧
    (∃ c', lookupColl (st_trans_sup_ha noFault areaHa path campo prec esc s).2.1 path = some c' ∧
      c'.fields = stdFID :: stdShape ::
        attrs.map (fun f => if strLower f.name == strLower campo then mkTargetField campo prec esc else f) ∧
      c'.rows.length = c.rows.length) ∧
    (mkTargetField campo prec esc).ftype = "Double" ∧
    (mkTargetField campo prec esc).precision = prec ∧
    (mkTargetField campo prec esc).scale = esc ∧
    (∀ k, ¬k = path → ¬k = freshLoc s →
      lookupColl (st_trans_sup_ha noFault areaHa path campo prec esc s).2.1 k = lookupColl s k) := by
  have hslow : ∀ fObj', attrs.find? (fun f => strLower f.name == strLower campo) = some fObj' →
      ¬(fObj'.ftype = "Double" ∧ fObj'.precision = prec ∧ fObj'.scale = esc) := by
    intro fObj' h'
    rw [hfind] at h'
    rw [← Option.some.inj h']
    exact hmal
  have hrun := st_trans_slow_ok areaHa path campo prec esc s c attrs hc hfields hslow hattr hnd hres hcampo
  have hpt : ¬path = freshLoc s := freshLoc_ne_of_lookup s path c hc
  have hp : targetPresent campo attrs = true := targetPresent_of_find hfind
  refine ⟨by rw [hrun], ⟨tempFinalColl areaHa campo prec esc c attrs, ?_, ?_, ?_⟩, rfl, rfl, rfl, ?_⟩
  · rw [hrun]
    exact slowFinal_lookup_path areaHa path campo prec esc s c attrs hpt
  · show stdFID :: stdShape :: (migratedAttrs campo prec esc attrs ++
      (if targetPresent campo attrs then [] else [calcAddedField campo])) = _
    rw [hp, if_pos rfl, List.append_nil,
      migratedAttrs_no_id campo prec esc attrs hid (fun f hf => (hattr f hf).2.2)]
  · exact tempFinal_rows_length areaHa campo prec esc c attrs
  · intro k hk1 hk2
    rw [hrun]
    exact slowFinal_lookup_other areaHa path campo prec esc s c attrs k hk1 hk2

/-- Witness for the amended C1 at a concrete malformed-target collection. -/
theorem c1_slow_malformed_witness :
    lookupColl [("a.shp", collMal)] "a.shp" = some collMal ∧
    collMal.fields = stdFID :: stdShape :: [nameField, supHaText] ∧
    [nameField, supHaText].find? (fun f => strLower f.name == strLower "Sup_ha") = some supHaText ∧
    ¬(supHaText.ftype = "Double" ∧ supHaText.precision = 8 ∧ supHaText.scale = 2) ∧
    ((st_trans_sup_ha noFault areaDemo "a.shp" "Sup_ha" 8 2 [("a.shp", collMal)]).1 = true ∧
     (∃ c', lookupColl (st_trans_sup_ha noFault areaDemo "a.shp" "Sup_ha" 8 2 [("a.shp", collMal)]).2.1
          "a.shp" = some c' ∧
       c'.fields = stdFID :: stdShape ::
         [nameField, supHaText].map
           (fun f => if strLower f.name == strLower "Sup_ha" then mkTargetField "Sup_ha" 8 2 else f) ∧
       c'.rows.length = collMal.rows.length) ∧
     (mkTargetField "Sup_ha" 8 2).ftype = "Double" ∧
     (mkTargetField "Sup_ha" 8 2).precision = 8 ∧
     (mkTargetField "Sup_ha" 8 2).scale = 2 ∧
     (∀ k, ¬k = "a.shp" → ¬k = freshLoc [("a.shp", collMal)] →
       lookupColl (st_trans_sup_ha noFault areaDemo "a.shp" "Sup_ha" 8 2 [("a.shp", collMal)]).2.1 k
         = lookupColl [("a.shp", collMal)] k)) :=
  ⟨rfl, rfl, rfl, by decide,
    c1_slow_malformed areaDemo "a.shp" "Sup_ha" 8 2 [("a.shp", collMal)] collMal
      [nameField, supHaText] supHaText rfl rfl (by decide) (by decide) (by decide)
      (by decide) (by decide) rfl (by decide)⟩

end SupHA

namespace SupHA

/-! ### C2: slow path on an absent target -/

/-- Counterexample to C2 as stated: with no matching field present the call
succeeds and a field of the requested name is appended, but it carries the
geometry-computation collaborator's default precision and scale (19, 11),
not the requested (8, 2) — no field of the final schema has the requested
precision and scale. -/
theorem c2_counterexample :
    (st_trans_sup_ha noFault areaDemo "b.shp" "Sup_ha" 8 2 [("b.shp", collAbs)]).1 = true ∧
    ((lookupColl (st_trans_sup_ha noFault areaDemo "b.shp" "Sup_ha" 8 2 [("b.shp", collAbs)]).2.1
        "b.shp").map (fun c' => c'.fields.map (fun f => (f.name, f.ftype, f.precision, f.scale))))
      = some [("FID", "OID", 0, 0), ("Shape", "Geometry", 0, 0),
          ("Name", "String", 0, 0), ("Sup_ha", "Double", 19, 11)] ∧
    ((lookupColl (st_trans_sup_ha noFault areaDemo "b.shp" "Sup_ha" 8 2 [("b.shp", collAbs)]).2.1
        "b.shp").map (fun c' => c'.fields.any (fun f => f.precision == 8 && f.scale == 2)))
      = some false := by
  refine ⟨?_, ?_, ?_⟩ <;> rfl

/-- C2 (amended): when no field matches the target name (and no attribute
field is named `Id` up to case), the call succeeds and the target field is
appended after the surviving original fields — but as the geometry
computation's own Double field with collaborator-default precision and
scale (`calcAddedPrecision`/`calcAddedScale`), not the requested ones; the
row count is preserved. -/
theorem c2_slow_absent (areaHa : Nat → Nat → Int) (path campo : String)
    (prec esc : Nat) (s : Storage) (c : FeatureCollection) (attrs : List Field)
    (hc : lookupColl s path = some c)
    (hfields : c.fields = stdFID :: stdShape :: attrs)
    (hattr : ∀ f ∈ attrs, ¬f.ftype = "OID" ∧ ¬f.ftype = "Geometry" ∧ normalizeFieldType f.ftype = f.ftype)
    (hnd : (attrs.map (fun f => strLower f.name)).Nodup)
    (hres : ∀ f ∈ attrs, ¬strLower f.name = "fid" ∧ ¬strLower f.name = "shape")
    (hid : ∀ f ∈ attrs, ¬strLower f.name = "id")
    (hcampo : CampoOk campo)
    (hnone : attrs.find? (fun f => strLower f.name == strLower campo) = none) :
    (st_trans_sup_ha noFault areaHa path campo prec esc s).1 = true ∧
    (∃ c', lookupColl (st_trans_sup_ha noFault areaHa path campo prec esc s).2.1 path = some c' ∧
      c'.fields = stdFID :: stdShape :: (attrs ++ [calcAddedField campo]) ∧
      c'.rows.length = c.rows.length) ∧
    (calcAddedField campo).name = campo ∧
    (calcAddedField campo).ftype = "Double" ∧
    (calcAddedField campo).precision = calcAddedPrecision ∧
    (calcAddedField campo).scale = calcAddedScale := by
  have hslow : ∀ fObj', attrs.find? (fun f => strLower f.name == strLower campo) = some fObj' →
      ¬(fObj'.ftype = "Double" ∧ fObj'.precision = prec ∧ fObj'.scale = esc) := by
    intro fObj' h'
    rw [hnone] at h'
    exact absurd h' (by simp)
  have hrun := st_trans_slow_ok areaHa path campo prec esc s c attrs hc hfields hslow hattr hnd hres hcampo
  have hpt : ¬path = freshLoc s := freshLoc_ne_of_lookup s path c hc
  have hp : targetPresent campo attrs = false := targetPresent_of_none hnone
  have hnocam : ∀ f ∈ attrs, ¬strLower f.name = strLower campo := by
    intro f hf h'
    exact (List.find?_eq_none.mp hnone f hf) (beqT h')
  refine ⟨by rw [hrun], ⟨tempFinalColl areaHa campo prec esc c attrs, ?_, ?_, ?_⟩, rfl, rfl, rfl, rfl⟩
  · rw [hrun]
    exact slowFinal_lookup_path areaHa path campo prec esc s c attrs hpt
  · show stdFID :: stdShape :: (migratedAttrs campo prec esc attrs ++
      (if targetPresent campo attrs then [] else [calcAddedField campo])) = _
    rw [hp, if_neg Bool.false_ne_true,
      migratedAttrs_no_id campo prec esc attrs hid (fun f hf => (hattr f hf).2.2)]
    rw [map_congr_self _ id attrs (by
      intro f hf
      rw [if_neg (by rw [beqF (hnocam f hf)]; exact Bool.false_ne_true)]
      rfl)]
    rw [List.map_id]
  · exact tempFinal_rows_length areaHa campo prec esc c attrs

/-- Witness for the amended C2 at a concrete target-less collection. -/
theorem c2_slow_absent_witness :
    lookupColl [("b.shp", collAbs)] "b.shp" = some collAbs ∧
    collAbs.fields = stdFID :: stdShape :: [nameField] ∧
    [nameField].find? (fun f => strLower f.name == strLower "Sup_ha") = none ∧
    ((st_trans_sup_ha noFault areaDemo "b.shp" "Sup_ha" 8 2 [("b.shp", collAbs)]).1 = true ∧
     (∃ c', lookupColl (st_trans_sup_ha noFault areaDemo "b.shp" "Sup_ha" 8 2 [("b.shp", collAbs)]).2.1
          "b.shp" = some c' ∧
       c'.fields = stdFID :: stdShape :: ([nameField] ++ [calcAddedField "Sup_ha"]) ∧
       c'.rows.length = collAbs.rows.length) ∧
     (calcAddedField "Sup_ha").name = "Sup_ha" ∧
     (calcAddedField "Sup_ha").ftype = "Double" ∧
     (calcAddedField "Sup_ha").precision = calcAddedPrecision ∧
     (calcAddedField "Sup_ha").scale = calcAddedScale) :=
  ⟨rfl, rfl, rfl,
    c2_slow_absent areaDemo "b.shp" "Sup_ha" 8 2 [("b.shp", collAbs)] collAbs [nameField]
      rfl rfl (by decide) (by decide) (by decide) (by decide) (by decide) rfl⟩

end SupHA

namespace SupHA

theorem campo_ne_Id {campo : String} (hcampo : CampoOk campo) : ¬campo = "Id" := by
  intro h
  apply hcampo.2.2
  rw [h]
  rfl

/-! ### C5: the target value is the feature's own area in hectares -/

/-- C5: every fault-free call on a well-formed source collection succeeds,
and afterwards the collection holds a target field (matching the name up to
case) whose value in every row is the area of that feature's own geometry in
hectares, measured against the collection's native spatial reference — on
the fast path as well as on both slow paths. -/
theorem c5_area_values (areaHa : Nat → Nat → Int) (path campo : String)
    (prec esc : Nat) (s : Storage) (c : FeatureCollection) (attrs : List Field)
    (hc : lookupColl s path = some c)
    (hfields : c.fields = stdFID :: stdShape :: attrs)
    (hattr : ∀ f ∈ attrs, ¬f.ftype = "OID" ∧ ¬f.ftype = "Geometry" ∧ normalizeFieldType f.ftype = f.ftype)
    (hnd : (attrs.map (fun f => strLower f.name)).Nodup)
    (hres : ∀ f ∈ attrs, ¬strLower f.name = "fid" ∧ ¬strLower f.name = "shape")
    (hcampo : CampoOk campo) :
    (st_trans_sup_ha noFault areaHa path campo prec esc s).1 = true ∧
    (∃ c', lookupColl (st_trans_sup_ha noFault areaHa path campo prec esc s).2.1 path = some c' ∧
      ∃ tf, tf ∈ c'.fields ∧ strLower tf.name = strLower campo ∧
        ∀ r ∈ c'.rows, getAttr r tf.name = areaHa r.geom c.sref) := by
  cases hfd : attrs.find? (fun f => strLower f.name == strLower campo) with
  | some fObj =>
      by_cases hwf : fObj.ftype = "Double" ∧ fObj.precision = prec ∧ fObj.scale = esc
      · have hfindc : c.fields.find? (fun f => strLower f.name == strLower campo) = some fObj := by
          rw [hfields, find_skip_fid_shape campo hcampo]
          exact hfd
        have hrun := st_trans_fast_run noFault areaHa path campo prec esc s c fObj hc hfindc hwf rfl rfl rfl
        refine ⟨by rw [hrun], ⟨_, by rw [hrun]; exact lookup_update_eq _ _ _, fObj, ?_, ?_, ?_⟩⟩
        · exact List.mem_of_find?_eq_some hfindc
        · exact beq_iff_eq.mp
            (@List.find?_some Field (fun f => strLower f.name == strLower campo) fObj c.fields hfindc)
        · intro r' hr'
          obtain ⟨r, _, rfl⟩ := List.mem_map.mp hr'
          exact getAttr_setAttr_self fObj.name (areaHa r.geom c.sref) r.geom r.attrs
      · have hslow : ∀ fObj', attrs.find? (fun f => strLower f.name == strLower campo) = some fObj' →
            ¬(fObj'.ftype = "Double" ∧ fObj'.precision = prec ∧ fObj'.scale = esc) := by
          intro fObj' h'
          rw [hfd] at h'
          rw [← Option.some.inj h']
          exact hwf
        have hrun := st_trans_slow_ok areaHa path campo prec esc s c attrs hc hfields hslow hattr hnd hres hcampo
        have hpt : ¬path = freshLoc s := freshLoc_ne_of_lookup s path c hc
        have hp : targetPresent campo attrs = true := targetPresent_of_find hfd
        refine ⟨by rw [hrun],
          ⟨tempFinalColl areaHa campo prec esc c attrs,
            by rw [hrun]; exact slowFinal_lookup_path areaHa path campo prec esc s c attrs hpt,
            mkTargetField campo prec esc, ?_, rfl, ?_⟩⟩
        · show mkTargetField campo prec esc ∈ stdFID :: stdShape ::
            (migratedAttrs campo prec esc attrs ++
              (if targetPresent campo attrs then [] else [calcAddedField campo]))
          refine List.mem_cons_of_mem _ (List.mem_cons_of_mem _ (List.mem_append_left _ ?_))
          exact List.mem_of_find?_eq_some (find_migrated_present campo prec esc attrs hcampo hp)
        · intro r' hr'
          have hr2 : r' ∈ c.rows.map
              (fun r => delIdRow (slowRow areaHa c.sref campo (slowCopyNames campo attrs) r)) := hr'
          obtain ⟨r, _, rfl⟩ := List.mem_map.mp hr2
          exact slowRow_target_value areaHa c.sref campo attrs r (campo_ne_Id hcampo)
  | none =>
      have hslow : ∀ fObj', attrs.find? (fun f => strLower f.name == strLower campo) = some fObj' →
          ¬(fObj'.ftype = "Double" ∧ fObj'.precision = prec ∧ fObj'.scale = esc) := by
        intro fObj' h'
        rw [hfd] at h'
        exact absurd h' (by simp)
      have hrun := st_trans_slow_ok areaHa path campo prec esc s c attrs hc hfields hslow hattr hnd hres hcampo
      have hpt : ¬path = freshLoc s := freshLoc_ne_of_lookup s path c hc
      have hp : targetPresent campo attrs = false := targetPresent_of_none hfd
      refine ⟨by rw [hrun],
        ⟨tempFinalColl areaHa campo prec esc c attrs,
          by rw [hrun]; exact slowFinal_lookup_path areaHa path campo prec esc s c attrs hpt,
          calcAddedField campo, ?_, rfl, ?_⟩⟩
      · show calcAddedField campo ∈ stdFID :: stdShape ::
          (migratedAttrs campo prec esc attrs ++
            (if targetPresent campo attrs then [] else [calcAddedField campo]))
        refine List.mem_cons_of_mem _ (List.mem_cons_of_mem _ ?_)
        rw [hp, if_neg Bool.false_ne_true]
        exact List.mem_append_right _ (List.mem_cons_self _ _)
      · intro r' hr'
        have hr2 : r' ∈ c.rows.map
            (fun r => delIdRow (slowRow areaHa c.sref campo (slowCopyNames campo attrs) r)) := hr'
        obtain ⟨r, _, rfl⟩ := List.mem_map.mp hr2
        exact slowRow_target_value areaHa c.sref campo attrs r (campo_ne_Id hcampo)

/-- Witness for C5 at a concrete collection (fast path instance). -/
theorem c5_area_values_witness :
    lookupColl [("a.shp", collFast)] "a.shp" = some collFast ∧
    collFast.fields = stdFID :: stdShape :: [nameField, supHaGood] ∧
    ((st_trans_sup_ha noFault areaDemo "a.shp" "Sup_ha" 8 2 [("a.shp", collFast)]).1 = true ∧
     (∃ c', lookupColl (st_trans_sup_ha noFault areaDemo "a.shp" "Sup_ha" 8 2 [("a.shp", collFast)]).2.1
          "a.shp" = some c' ∧
       ∃ tf, tf ∈ c'.fields ∧ strLower tf.name = strLower "Sup_ha" ∧
         ∀ r ∈ c'.rows, getAttr r tf.name = areaDemo r.geom collFast.sref)) :=
  ⟨rfl, rfl,
    c5_area_values areaDemo "a.shp" "Sup_ha" 8 2 [("a.shp", collFast)] collFast
      [nameField, supHaGood] rfl rfl (by decide) (by decide) (by decide) (by decide)⟩

end SupHA


namespace SupHA

/-! ### C7: idempotence -/

/-- The fast-path update of a collection: every row's target attribute is
recomputed from its own geometry (lines 50-55 of the source). -/
def fastMapped (areaHa : Nat → Nat → Int) (fname : String) (c : FeatureCollection) :
    FeatureCollection :=
  { c with rows := c.rows.map (fun r => ⟨r.geom, setAttr fname (areaHa r.geom c.sref) r.attrs⟩) }

theorem st_trans_fast_runM (fo : FaultOracle) (areaHa : Nat → Nat → Int)
    (path campo : String) (prec esc : Nat) (s : Storage)
    (c : FeatureCollection) (fObj : Field)
    (hc : lookupColl s path = some c)
    (hfind : c.fields.find? (fun f => strLower f.name == strLower campo) = some fObj)
    (hwf : fObj.ftype = "Double" ∧ fObj.precision = prec ∧ fObj.scale = esc)
    (hfoD : fo (Op.describe path) = false)
    (hfoL : fo (Op.listFields path) = false)
    (hfoC : fo (Op.calcGeometry path campo) = false) :
    st_trans_sup_ha fo areaHa path campo prec esc s =
      (true, updateColl s path (fastMapped areaHa fObj.name c), []) :=
  st_trans_fast_run fo areaHa path campo prec esc s c fObj hc hfind hwf hfoD hfoL hfoC

theorem fastMapped_idem (areaHa : Nat → Nat → Int) (fname : String) (c : FeatureCollection) :
    fastMapped areaHa fname (fastMapped areaHa fname c) = fastMapped areaHa fname c := by
  simp only [fastMapped]
  rw [List.map_map]
  rw [map_congr_self _ (fun r => (⟨r.geom, setAttr fname (areaHa r.geom c.sref) r.attrs⟩ : Feature)) c.rows
    (by
      intro r _
      show (⟨r.geom, setAttr fname (areaHa r.geom c.sref) (setAttr fname (areaHa r.geom c.sref) r.attrs)⟩ : Feature)
        = ⟨r.geom, setAttr fname (areaHa r.geom c.sref) r.attrs⟩
      rw [setAttr_setAttr])]

theorem fastMapped_tempFinal (areaHa : Nat → Nat → Int) (campo : String) (prec esc : Nat)
    (c : FeatureCollection) (attrs : List Field) (hcampo : CampoOk campo) :
    fastMapped areaHa campo (tempFinalColl areaHa campo prec esc c attrs)
      = tempFinalColl areaHa campo prec esc c attrs := by
  simp only [fastMapped, tempFinalColl]
  rw [List.map_map]
  rw [map_congr_self _ (fun r => delIdRow (slowRow areaHa c.sref campo (slowCopyNames campo attrs) r)) c.rows
    (by
      intro r _
      show (⟨r.geom, setAttr campo (areaHa r.geom c.sref)
          (delIdRow (slowRow areaHa c.sref campo (slowCopyNames campo attrs) r)).attrs⟩ : Feature)
        = delIdRow (slowRow areaHa c.sref campo (slowCopyNames campo attrs) r)
      rw [setAttr_lookup_self campo (areaHa r.geom c.sref) _
        (slowRow_target_lookup areaHa c.sref campo attrs r (campo_ne_Id hcampo))]
      rfl)]

/-- Counterexample to C7 as stated: on a collection with no target field the
first call appends the field with the collaborator-default precision/scale,
so the second call takes the slow path again and rebuilds the field with the
requested precision/scale — the final schemas of one call and of two calls
differ. -/
theorem c7_counterexample :
    (st_trans_sup_ha noFault areaDemo "a.shp" "Sup_ha" 8 2 [("a.shp", collAbs)]).1 = true ∧
    (st_trans_sup_ha noFault areaDemo "a.shp" "Sup_ha" 8 2
        (st_trans_sup_ha noFault areaDemo "a.shp" "Sup_ha" 8 2 [("a.shp", collAbs)]).2.1).1 = true ∧
    ¬((lookupColl (st_trans_sup_ha noFault areaDemo "a.shp" "Sup_ha" 8 2 [("a.shp", collAbs)]).2.1
          "a.shp").map (fun c' => c'.fields.map (fun f => (f.precision, f.scale))))
      = ((lookupColl (st_trans_sup_ha noFault areaDemo "a.shp" "Sup_ha" 8 2
            (st_trans_sup_ha noFault areaDemo "a.shp" "Sup_ha" 8 2 [("a.shp", collAbs)]).2.1).2.1
          "a.shp").map (fun c' => c'.fields.map (fun f => (f.precision, f.scale)))) := by
  refine ⟨rfl, rfl, ?_⟩
  decide

/-- C7 (amended): idempotence holds whenever the target field is present in
the source collection (well-formed or malformed): a second fault-free call
with the same parameters is the identity on the state produced by the first,
so schema and computed values agree exactly.  When the field is absent the
first call leaves a field with collaborator-default precision/scale and the
second call rebuilds the schema again (see the counterexample). -/
theorem c7_idempotent_present (areaHa : Nat → Nat → Int) (path campo : String)
    (prec esc : Nat) (s : Storage) (c : FeatureCollection) (attrs : List Field) (fObj : Field)
    (hc : lookupColl s path = some c)
    (hfields : c.fields = stdFID :: stdShape :: attrs)
    (hattr : ∀ f ∈ attrs, ¬f.ftype = "OID" ∧ ¬f.ftype = "Geometry" ∧ normalizeFieldType f.ftype = f.ftype)
    (hnd : (attrs.map (fun f => strLower f.name)).Nodup)
    (hres : ∀ f ∈ attrs, ¬strLower f.name = "fid" ∧ ¬strLower f.name = "shape")
    (hcampo : CampoOk campo)
    (hfind : attrs.find? (fun f => strLower f.name == strLower campo) = some fObj) :
    (st_trans_sup_ha noFault areaHa path campo prec esc s).1 = true ∧
    st_trans_sup_ha noFault areaHa path campo prec esc
        (st_trans_sup_ha noFault areaHa path campo prec esc s).2.1
      = (true, (st_trans_sup_ha noFault areaHa path campo prec esc s).2.1, []) := by
  have hfindc : c.fields.find? (fun f => strLower f.name == strLower campo) = some fObj := by
    rw [hfields, find_skip_fid_shape campo hcampo]
    exact hfind
  by_cases hwf : fObj.ftype = "Double" ∧ fObj.precision = prec ∧ fObj.scale = esc
  · have hrun1 := st_trans_fast_runM noFault areaHa path campo prec esc s c fObj hc hfindc hwf rfl rfl rfl
    refine ⟨by rw [hrun1], ?_⟩
    rw [hrun1]
    show st_trans_sup_ha noFault areaHa path campo prec esc
        (updateColl s path (fastMapped areaHa fObj.name c))
      = (true, updateColl s path (fastMapped areaHa fObj.name c), [])
    have hc2 : lookupColl (updateColl s path (fastMapped areaHa fObj.name c)) path
        = some (fastMapped areaHa fObj.name c) := lookup_update_eq _ _ _
    have hfind2 : (fastMapped areaHa fObj.name c).fields.find?
        (fun f => strLower f.name == strLower campo) = some fObj := hfindc
    have hrun2 := st_trans_fast_runM noFault areaHa path campo prec esc
      (updateColl s path (fastMapped areaHa fObj.name c)) (fastMapped areaHa fObj.name c)
      fObj hc2 hfind2 hwf rfl rfl rfl
    rw [hrun2, fastMapped_idem, update_lookup_same _ path _ hc2]
  · have hslow : ∀ fObj', attrs.find? (fun f => strLower f.name == strLower campo) = some fObj' →
        ¬(fObj'.ftype = "Double" ∧ fObj'.precision = prec ∧ fObj'.scale = esc) := by
      intro fObj' h'
      rw [hfind] at h'
      rw [← Option.some.inj h']
      exact hwf
    have hrun1 := st_trans_slow_ok areaHa path campo prec esc s c attrs hc hfields hslow hattr hnd hres hcampo
    have hpt : ¬path = freshLoc s := freshLoc_ne_of_lookup s path c hc
    have hp : targetPresent campo attrs = true := targetPresent_of_find hfind
    refine ⟨by rw [hrun1], ?_⟩
    rw [hrun1]
    show st_trans_sup_ha noFault areaHa path campo prec esc
        (slowFinalStorage areaHa path campo prec esc s c attrs)
      = (true, slowFinalStorage areaHa path campo prec esc s c attrs, [])
    have hc2 : lookupColl (slowFinalStorage areaHa path campo prec esc s c attrs) path
        = some (tempFinalColl areaHa campo prec esc c attrs) :=
      slowFinal_lookup_path areaHa path campo prec esc s c attrs hpt
    have hrun2 := st_trans_fast_runM noFault areaHa path campo prec esc
      (slowFinalStorage areaHa path campo prec esc s c attrs)
      (tempFinalColl areaHa campo prec esc c attrs)
      (mkTargetField campo prec esc) hc2
      (tempFinal_find_present areaHa campo prec esc c attrs hcampo hp)
      ⟨rfl, rfl, rfl⟩ rfl rfl rfl
    rw [hrun2]
    have hfix : fastMapped areaHa (mkTargetField campo prec esc).name
        (tempFinalColl areaHa campo prec esc c attrs)
      = tempFinalColl areaHa campo prec esc c attrs :=
      fastMapped_tempFinal areaHa campo prec esc c attrs hcampo
    rw [hfix, update_lookup_same _ path _ hc2]

/-- Witness for the amended C7 at a concrete collection with the target
field present and well-formed. -/
theorem c7_idempotent_present_witness :
    lookupColl [("a.shp", collFast)] "a.shp" = some collFast ∧
    [nameField, supHaGood].find? (fun f => strLower f.name == strLower "Sup_ha") = some supHaGood ∧
    ((st_trans_sup_ha noFault areaDemo "a.shp" "Sup_ha" 8 2 [("a.shp", collFast)]).1 = true ∧
     st_trans_sup_ha noFault areaDemo "a.shp" "Sup_ha" 8 2
         (st_trans_sup_ha noFault areaDemo "a.shp" "Sup_ha" 8 2 [("a.shp", collFast)]).2.1
       = (true, (st_trans_sup_ha noFault areaDemo "a.shp" "Sup_ha" 8 2 [("a.shp", collFast)]).2.1, [])) :=
  ⟨rfl, rfl,
    c7_idempotent_present areaDemo "a.shp" "Sup_ha" 8 2 [("a.shp", collFast)] collFast
      [nameField, supHaGood] supHaGood rfl rfl (by decide) (by decide) (by decide) (by decide) rfl⟩

end SupHA

namespace SupHA

/-! ### C8: the destructive swap window -/

/-- Oracle that makes exactly the `Delete` of the given location fail (the
step of line 114 that destroys the original collection). -/
def failOnDeleteOf (p : String) : FaultOracle := fun op =>
  match op with
  | Op.delete l => l == p
  | _ => false

/-- Oracle that makes exactly the final `CopyFeatures` copy-back (line 115)
fail. -/
def failOnCopyBack : FaultOracle := fun op =>
  match op with
  | Op.copyFeatures _ _ => true
  | _ => false

/-- C8: on the slow path the original collection survives, fully intact,
until the `Delete` of line 114 — at that point the temporary collection is
already fully populated (same row count, every row's target value computed
from its own geometry).  After the delete there is a window with nothing at
the input location: if the copy-back of line 115 fails, the call returns
failure, the original location holds no collection, no rollback happens,
and the populated temporary is left behind. -/
theorem c8_swap_window (areaHa : Nat → Nat → Int) (path campo : String)
    (prec esc : Nat) (s : Storage) (c : FeatureCollection) (attrs : List Field)
    (hc : lookupColl s path = some c)
    (hfields : c.fields = stdFID :: stdShape :: attrs)
    (hslow : ∀ fObj, attrs.find? (fun f => strLower f.name == strLower campo) = some fObj →
        ¬(fObj.ftype = "Double" ∧ fObj.precision = prec ∧ fObj.scale = esc))
    (hattr : ∀ f ∈ attrs, ¬f.ftype = "OID" ∧ ¬f.ftype = "Geometry" ∧ normalizeFieldType f.ftype = f.ftype)
    (hnd : (attrs.map (fun f => strLower f.name)).Nodup)
    (hres : ∀ f ∈ attrs, ¬strLower f.name = "fid" ∧ ¬strLower f.name = "shape")
    (hcampo : CampoOk campo)
    (hkeys : keysND s) :
    ((st_trans_sup_ha (failOnDeleteOf path) areaHa path campo prec esc s).1 = false ∧
     lookupColl (st_trans_sup_ha (failOnDeleteOf path) areaHa path campo prec esc s).2.1 path
       = some c ∧
     lookupColl (st_trans_sup_ha (failOnDeleteOf path) areaHa path campo prec esc s).2.1 (freshLoc s)
       = some (tempFinalColl areaHa campo prec esc c attrs) ∧
     (tempFinalColl areaHa campo prec esc c attrs).rows.length = c.rows.length ∧
     (∀ r' ∈ (tempFinalColl areaHa campo prec esc c attrs).rows,
        ∃ r, r ∈ c.rows ∧ r'.geom = r.geom ∧
          r'.attrs.lookup campo = some (areaHa r.geom c.sref))) ∧
    ((st_trans_sup_ha failOnCopyBack areaHa path campo prec esc s).1 = false ∧
     lookupColl (st_trans_sup_ha failOnCopyBack areaHa path campo prec esc s).2.1 path = none ∧
     lookupColl (st_trans_sup_ha failOnCopyBack areaHa path campo prec esc s).2.1 (freshLoc s)
       = some (tempFinalColl areaHa campo prec esc c attrs)) := by
  have hpt : ¬path = freshLoc s := freshLoc_ne_of_lookup s path c hc
  have h1 : lookupColl (updateColl s (freshLoc s) (tempFinalColl areaHa campo prec esc c attrs)) path
      = some c := by
    rw [lookup_update_ne s (freshLoc s) path _ hpt]
    exact hc
  have hrunA : st_trans_sup_ha (failOnDeleteOf path) areaHa path campo prec esc s
      = (false, updateColl s (freshLoc s) (tempFinalColl areaHa campo prec esc c attrs),
         ["ExecuteError: injected collaborator fault"]) := by
    rw [st_trans_sup_ha, if_pos (by rw [hc]; rfl)]
    rw [st_trans_body_slow (failOnDeleteOf path) areaHa path campo prec esc s c attrs hc hfields
      hslow hattr hnd hres hcampo rfl rfl rfl (fun _ => rfl) rfl rfl rfl rfl]
    rw [mbind_err _ _ _ _ _
      (svc_fault (failOnDeleteOf path) (Op.delete path) (deleteAct path) _ (beqT rfl))]
  have hrunB : st_trans_sup_ha failOnCopyBack areaHa path campo prec esc s
      = (false,
         removeColl (updateColl s (freshLoc s) (tempFinalColl areaHa campo prec esc c attrs)) path,
         ["ExecuteError: injected collaborator fault"]) := by
    rw [st_trans_sup_ha, if_pos (by rw [hc]; rfl)]
    rw [st_trans_body_slow failOnCopyBack areaHa path campo prec esc s c attrs hc hfields
      hslow hattr hnd hres hcampo rfl rfl rfl (fun _ => rfl) rfl rfl rfl rfl]
    rw [mbind_ok _ _ _ _ ()
      (svc_ok failOnCopyBack (Op.delete path) (deleteAct path) _ _ () rfl (deleteAct_run path _ c h1))]
    rw [mbind_err _ _ _ _ _
      (svc_fault failOnCopyBack (Op.copyFeatures (freshLoc s) path) (copyFeaturesAct (freshLoc s) path) _ rfl)]
  refine ⟨⟨?_, ?_, ?_, ?_, ?_⟩, ?_, ?_, ?_⟩
  · rw [hrunA]
  · rw [hrunA]
    exact h1
  · rw [hrunA]
    exact lookup_update_eq _ _ _
  · show (c.rows.map (fun r => delIdRow (slowRow areaHa c.sref campo (slowCopyNames campo attrs) r))).length
      = c.rows.length
    exact List.length_map _ _
  · intro r' hr'
    have hm : r' ∈ c.rows.map (fun r => delIdRow (slowRow areaHa c.sref campo (slowCopyNames campo attrs) r)) := hr'
    obtain ⟨r, hr, hfr⟩ := List.mem_map.mp hm
    refine ⟨r, hr, ?_, ?_⟩
    · rw [← hfr]
      rfl
    · rw [← hfr]
      exact slowRow_target_lookup areaHa c.sref campo attrs r (campo_ne_Id hcampo)
  · rw [hrunB]
  · rw [hrunB]
    exact lookup_remove_self _ path (keysND_update s (freshLoc s) _ hkeys)
  · rw [hrunB]
    rw [lookup_remove_ne _ path (freshLoc s) (fun h => hpt h.symm)]
    exact lookup_update_eq _ _ _

/-- Witness for C8 at a concrete malformed collection. -/
theorem c8_swap_window_witness :
    keysND [("a.shp", collMal)] ∧
    (((st_trans_sup_ha (failOnDeleteOf "a.shp") areaDemo "a.shp" "Sup_ha" 8 2 [("a.shp", collMal)]).1 = false ∧
      lookupColl (st_trans_sup_ha (failOnDeleteOf "a.shp") areaDemo "a.shp" "Sup_ha" 8 2 [("a.shp", collMal)]).2.1 "a.shp"
        = some collMal ∧
      lookupColl (st_trans_sup_ha (failOnDeleteOf "a.shp") areaDemo "a.shp" "Sup_ha" 8 2 [("a.shp", collMal)]).2.1
          (freshLoc [("a.shp", collMal)])
        = some (tempFinalColl areaDemo "Sup_ha" 8 2 collMal [nameField, supHaText]) ∧
      (tempFinalColl areaDemo "Sup_ha" 8 2 collMal [nameField, supHaText]).rows.length = collMal.rows.length ∧
      (∀ r' ∈ (tempFinalColl areaDemo "Sup_ha" 8 2 collMal [nameField, supHaText]).rows,
         ∃ r, r ∈ collMal.rows ∧ r'.geom = r.geom ∧
           r'.attrs.lookup "Sup_ha" = some (areaDemo r.geom collMal.sref))) ∧
     ((st_trans_sup_ha failOnCopyBack areaDemo "a.shp" "Sup_ha" 8 2 [("a.shp", collMal)]).1 = false ∧
      lookupColl (st_trans_sup_ha failOnCopyBack areaDemo "a.shp" "Sup_ha" 8 2 [("a.shp", collMal)]).2.1 "a.shp" = none ∧
      lookupColl (st_trans_sup_ha failOnCopyBack areaDemo "a.shp" "Sup_ha" 8 2 [("a.shp", collMal)]).2.1
          (freshLoc [("a.shp", collMal)])
        = some (tempFinalColl areaDemo "Sup_ha" 8 2 collMal [nameField, supHaText]))) :=
  ⟨by decide,
    c8_swap_window areaDemo "a.shp" "Sup_ha" 8 2 [("a.shp", collMal)] collMal
      [nameField, supHaText] rfl rfl
      (fun fObj h => by
        rw [show ([nameField, supHaText].find? (fun f => strLower f.name == strLower "Sup_ha"))
            = some supHaText from rfl] at h
        rw [← Option.some.inj h]
        decide)
      (by decide) (by decide) (by decide) (by decide) (by decide)⟩

end SupHA

namespace SupHA

/-! ### C9: the genuine `Id` field is lost -/

theorem lookup_none_of_keys_ne (l : List (String × Int)) (n : String)
    (h : ∀ kv ∈ l, ¬kv.1 = n) : l.lookup n = none := by
  induction l with
  | nil => rfl
  | cons kv t ih =>
      obtain ⟨k, v⟩ := kv
      have hk : ¬k = n := h (k, v) (List.mem_cons_self _ _)
      simp only [List.lookup]
      rw [show (n == k) = false from beq_eq_false_iff_ne.mpr (fun hnk => hk hnk.symm)]
      exact ih (fun kv hkv => h kv (List.mem_cons_of_mem _ hkv))

/-- C9: on a fault-free slow-path run over a source whose attribute fields
include one literally named `Id`, the call still succeeds, but in the
collection left at the input location no field is named `Id` and no row
retains an `Id` attribute: the `DeleteField(temp, "Id")` of line 113 removes
the genuine field (the `AddField` of line 79 having been swallowed as a
duplicate of the implicit `Id`), together with its copied column. -/
theorem c9_id_field_lost (areaHa : Nat → Nat → Int) (path campo : String)
    (prec esc : Nat) (s : Storage) (c : FeatureCollection) (attrs : List Field)
    (hc : lookupColl s path = some c)
    (hfields : c.fields = stdFID :: stdShape :: attrs)
    (hslow : ∀ fObj, attrs.find? (fun f => strLower f.name == strLower campo) = some fObj →
        ¬(fObj.ftype = "Double" ∧ fObj.precision = prec ∧ fObj.scale = esc))
    (hattr : ∀ f ∈ attrs, ¬f.ftype = "OID" ∧ ¬f.ftype = "Geometry" ∧ normalizeFieldType f.ftype = f.ftype)
    (hnd : (attrs.map (fun f => strLower f.name)).Nodup)
    (hres : ∀ f ∈ attrs, ¬strLower f.name = "fid" ∧ ¬strLower f.name = "shape")
    (hcampo : CampoOk campo)
    (hid_present : "Id" ∈ attrs.map (fun f => f.name)) :
    (st_trans_sup_ha noFault areaHa path campo prec esc s).1 = true ∧
    lookupColl (st_trans_sup_ha noFault areaHa path campo prec esc s).2.1 path
      = some (tempFinalColl areaHa campo prec esc c attrs) ∧
    (∀ f ∈ (tempFinalColl areaHa campo prec esc c attrs).fields, ¬f.name = "Id") ∧
    (∀ r ∈ (tempFinalColl areaHa campo prec esc c attrs).rows,
       r.attrs.lookup "Id" = none) := by
  have hrun := st_trans_slow_ok areaHa path campo prec esc s c attrs hc hfields hslow hattr hnd hres hcampo
  have hpt : ¬path = freshLoc s := freshLoc_ne_of_lookup s path c hc
  refine ⟨by rw [hrun], ?_, ?_, ?_⟩
  · rw [hrun]
    exact slowFinal_lookup_path areaHa path campo prec esc s c attrs hpt
  · intro f hf
    have hf' : f ∈ stdFID :: stdShape :: (migratedAttrs campo prec esc attrs ++
        (if targetPresent campo attrs then [] else [calcAddedField campo])) := hf
    rcases List.mem_cons.mp hf' with rfl | hf2
    · decide
    rcases List.mem_cons.mp hf2 with rfl | hf3
    · decide
    rcases List.mem_append.mp hf3 with hm | hcalc
    · rcases @migratedAttrs_names campo prec esc attrs f hm with h1 | ⟨g, hg, hgid, hgcam, hname⟩
      · rw [h1]
        exact campo_ne_Id hcampo
      · intro h
        apply hgid
        rw [← hname, h]
        decide
    · cases htp : targetPresent campo attrs with
      | true =>
          rw [htp, if_pos rfl] at hcalc
          exact absurd hcalc (List.not_mem_nil f)
      | false =>
          rw [htp, if_neg Bool.false_ne_true, List.mem_singleton] at hcalc
          rw [hcalc]
          exact campo_ne_Id hcampo
  · intro r hr
    have hm : r ∈ c.rows.map
        (fun r => delIdRow (slowRow areaHa c.sref campo (slowCopyNames campo attrs) r)) := hr
    obtain ⟨r0, _, hfr⟩ := List.mem_map.mp hm
    rw [← hfr]
    apply lookup_none_of_keys_ne
    intro kv hkv
    have hkv' : kv ∈ (slowRow areaHa c.sref campo (slowCopyNames campo attrs) r0).attrs.filter
        (fun kv => !(kv.1 == "Id")) := hkv
    have hkeep := List.of_mem_filter hkv'
    intro h
    rw [h] at hkeep
    exact absurd hkeep (by decide)

/-- Witness for C9 at a collection carrying a genuine `Id` attribute field
and a malformed target field. -/
theorem c9_id_field_lost_witness :
    "Id" ∈ [idAttr, nameField, supHaText].map (fun f => f.name) ∧
    ((st_trans_sup_ha noFault areaDemo "a.shp" "Sup_ha" 8 2 [("a.shp", collId)]).1 = true ∧
     lookupColl (st_trans_sup_ha noFault areaDemo "a.shp" "Sup_ha" 8 2 [("a.shp", collId)]).2.1 "a.shp"
       = some (tempFinalColl areaDemo "Sup_ha" 8 2 collId [idAttr, nameField, supHaText]) ∧
     (∀ f ∈ (tempFinalColl areaDemo "Sup_ha" 8 2 collId [idAttr, nameField, supHaText]).fields,
        ¬f.name = "Id") ∧
     (∀ r ∈ (tempFinalColl areaDemo "Sup_ha" 8 2 collId [idAttr, nameField, supHaText]).rows,
        r.attrs.lookup "Id" = none)) :=
  ⟨by decide,
    c9_id_field_lost areaDemo "a.shp" "Sup_ha" 8 2 [("a.shp", collId)] collId
      [idAttr, nameField, supHaText] rfl rfl
      (fun fObj h => by
        rw [show ([idAttr, nameField, supHaText].find? (fun f => strLower f.name == strLower "Sup_ha"))
            = some supHaText from rfl] at h
        rw [← Option.some.inj h]
        decide)
      (by decide) (by decide) (by decide) (by decide) (by decide)⟩

end SupHA

namespace SupHA

/-! ### C10: the target field is renamed to the parameter's casing -/

/-- C10: on a fault-free slow-path run whose source target field matches the
parameter only case-insensitively, the rebuilt collection carries the target
field under the parameter's exact spelling (`AddField(temp, campo_superficie,
"DOUBLE", ...)` of line 82) and no field under the source field's old
spelling: the field is effectively renamed. -/
theorem c10_renames (areaHa : Nat → Nat → Int) (path campo : String)
    (prec esc : Nat) (s : Storage) (c : FeatureCollection) (attrs : List Field) (fObj : Field)
    (hc : lookupColl s path = some c)
    (hfields : c.fields = stdFID :: stdShape :: attrs)
    (hslow : ∀ fObj', attrs.find? (fun f => strLower f.name == strLower campo) = some fObj' →
        ¬(fObj'.ftype = "Double" ∧ fObj'.precision = prec ∧ fObj'.scale = esc))
    (hattr : ∀ f ∈ attrs, ¬f.ftype = "OID" ∧ ¬f.ftype = "Geometry" ∧ normalizeFieldType f.ftype = f.ftype)
    (hnd : (attrs.map (fun f => strLower f.name)).Nodup)
    (hres : ∀ f ∈ attrs, ¬strLower f.name = "fid" ∧ ¬strLower f.name = "shape")
    (hcampo : CampoOk campo)
    (hfind : attrs.find? (fun f => strLower f.name == strLower campo) = some fObj)
    (hne : ¬fObj.name = campo) :
    (st_trans_sup_ha noFault areaHa path campo prec esc s).1 = true ∧
    lookupColl (st_trans_sup_ha noFault areaHa path campo prec esc s).2.1 path
      = some (tempFinalColl areaHa campo prec esc c attrs) ∧
    mkTargetField campo prec esc ∈ (tempFinalColl areaHa campo prec esc c attrs).fields ∧
    (mkTargetField campo prec esc).name = campo ∧
    (∀ f ∈ (tempFinalColl areaHa campo prec esc c attrs).fields, ¬f.name = fObj.name) := by
  have hrun := st_trans_slow_ok areaHa path campo prec esc s c attrs hc hfields hslow hattr hnd hres hcampo
  have hpt : ¬path = freshLoc s := freshLoc_ne_of_lookup s path c hc
  have hp : targetPresent campo attrs = true := targetPresent_of_find hfind
  have hq := List.find?_some hfind
  have hlf : strLower fObj.name = strLower campo := beq_iff_eq.mp hq
  refine ⟨by rw [hrun], ?_, ?_, rfl, ?_⟩
  · rw [hrun]
    exact slowFinal_lookup_path areaHa path campo prec esc s c attrs hpt
  · exact List.mem_of_find?_eq_some (tempFinal_find_present areaHa campo prec esc c attrs hcampo hp)
  · intro f hf h
    have hf' : f ∈ stdFID :: stdShape :: (migratedAttrs campo prec esc attrs ++
        (if targetPresent campo attrs then [] else [calcAddedField campo])) := hf
    rcases List.mem_cons.mp hf' with rfl | hf2
    · apply hcampo.1
      rw [← hlf, ← h]
      decide
    rcases List.mem_cons.mp hf2 with rfl | hf3
    · apply hcampo.2.1
      rw [← hlf, ← h]
      decide
    rcases List.mem_append.mp hf3 with hm | hcalc
    · rcases @migratedAttrs_names campo prec esc attrs f hm with h1 | ⟨g, hg, hgid, hgcam, hname⟩
      · rw [h1] at h
        exact hne h.symm
      · have hge : g.name = fObj.name := by
          rw [← hname]
          exact h
        exact hgcam (by rw [hge]; exact hlf)
    · rw [hp, if_pos rfl] at hcalc
      exact absurd hcalc (List.not_mem_nil f)

/-- Witness for C10 at a collection whose target field is spelled `SUP_HA`
while the parameter is spelled `Sup_ha`. -/
theorem c10_renames_witness :
    [nameField, supHaUpper].find? (fun f => strLower f.name == strLower "Sup_ha") = some supHaUpper ∧
    ¬supHaUpper.name = "Sup_ha" ∧
    ((st_trans_sup_ha noFault areaDemo "a.shp" "Sup_ha" 8 2 [("a.shp", collUpper)]).1 = true ∧
     lookupColl (st_trans_sup_ha noFault areaDemo "a.shp" "Sup_ha" 8 2 [("a.shp", collUpper)]).2.1 "a.shp"
       = some (tempFinalColl areaDemo "Sup_ha" 8 2 collUpper [nameField, supHaUpper]) ∧
     mkTargetField "Sup_ha" 8 2 ∈ (tempFinalColl areaDemo "Sup_ha" 8 2 collUpper [nameField, supHaUpper]).fields ∧
     (mkTargetField "Sup_ha" 8 2).name = "Sup_ha" ∧
     (∀ f ∈ (tempFinalColl areaDemo "Sup_ha" 8 2 collUpper [nameField, supHaUpper]).fields,
        ¬f.name = supHaUpper.name)) :=
  ⟨rfl, by decide,
    c10_renames areaDemo "a.shp" "Sup_ha" 8 2 [("a.shp", collUpper)] collUpper
      [nameField, supHaUpper] supHaUpper rfl rfl
      (fun fObj' h => by
        rw [show ([nameField, supHaUpper].find? (fun f => strLower f.name == strLower "Sup_ha"))
            = some supHaUpper from rfl] at h
        rw [← Option.some.inj h]
        decide)
      (by decide) (by decide) (by decide) (by decide) rfl (by decide)⟩

end SupHA
